import Mathlib

/-!
# syarchive-discord: rate limiter and playback session

A shallow embedding of `internal/security/security.go` (the sliding-window
`RateLimiter`, `SanitizeInput`, `HasPermission`), `internal/music/player.go`
(the `Player` session), `Client.SupportedModels` of
`internal/openrouter/client.go` and the places of `cmd/bot/main.go` that build
the limiter and cut the command prefix, with the properties of the
specification stated and proved over it.

Modelling conventions

* A `time.Time` is an integer count of nanoseconds on the clock that
  `time.Now()` reads, a `time.Duration` is an integer count of nanoseconds;
  `a.Sub(b)` is `a - b` and `a.Add(d)` is `a + d` (the saturation of `Sub` at
  the ends of the 64-bit duration range, about 292 years, is outside the model).
* Every function that calls `time.Now()` takes the instant it reads as an
  explicit argument `now`.
* `map[string][]time.Time` is a total function from keys to lists: reading an
  absent key of a Go map yields the nil slice, which is the empty list.
* A method with a pointer receiver returns the receiver's new state next to its
  result.
* A `*Track` is an `Option Track`: `none` is the nil pointer, `some t` a pointer
  to the track `t` (the code never writes through a track pointer).
* A `float64` is an `F64`: not-a-number, the two infinities or a finite value;
  the code only compares and stores volumes, it never computes with them.
* A Go `int` index is an `Int`; slicing `q[:i]` and `q[i:]` is `take` and `drop`.
* A call that panics in Go (a nil `voiceConn`) has no result: `none`.
* The mutex of `Player` is not modelled: every method body runs as one atomic
  step. `RateLimiter` has no mutex; `stepGoroutine` runs the body of `IsAllowed`
  one statement at a time, so that two goroutines can be interleaved.
* A Go `string` is the list of its bytes. `regexp`, `strings.TrimSpace`,
  `unicode.IsSpace` and the two rune decoders of `unicode/utf8` follow the Go
  standard library; loops over runes take fuel, one unit per rune, and
  `trimLeftFunc_fuel` and `lastIndexFunc_fuel` show that the fuel given is enough.
-/

namespace security

/-- A `time.Time`, in nanoseconds. -/
abbrev Time := Int

/-- A `time.Duration`, in nanoseconds. -/
abbrev Duration := Int

/-- The `RateLimiter` struct of `security.go`. -/
structure RateLimiter where
  limits : String → List Time
  maxReq : Int
  window : Duration

/-- `NewRateLimiter(maxRequests, window)`: an empty map and the two settings. -/
def NewRateLimiter (maxRequests : Int) (window : Duration) : RateLimiter :=
  { limits := fun _ => [], maxReq := maxRequests, window := window }

/-- The assignment `rl.limits[userID] = v`. -/
def setLimit (rl : RateLimiter) (userID : String) (v : List Time) : RateLimiter :=
  { rl with limits := fun k => if k = userID then v else rl.limits k }

/-- The clean-up loop shared by `IsAllowed` and `GetRemainingRequests`:
it ranges over the slice in order and appends to `validRequests` every
`reqTime` with `now.Sub(reqTime) < rl.window`. -/
def validRequests (now : Time) (window : Duration) : List Time → List Time
  | [] => []
  | reqTime :: rest =>
    if now - reqTime < window then reqTime :: validRequests now window rest
    else validRequests now window rest

/-- `RateLimiter.IsAllowed`, reading the clock as `now`. -/
def RateLimiter.IsAllowed (rl : RateLimiter) (userID : String) (now : Time) :
    Bool × RateLimiter :=
  let rl1 := setLimit rl userID (validRequests now rl.window (rl.limits userID))
  if (rl1.limits userID).length ≥ rl1.maxReq then
    (false, rl1)
  else
    (true, setLimit rl1 userID (rl1.limits userID ++ [now]))

/-- `RateLimiter.GetRemainingRequests`, reading the clock as `now`. -/
def RateLimiter.GetRemainingRequests (rl : RateLimiter) (userID : String) (now : Time) :
    Int × RateLimiter :=
  let rl1 := setLimit rl userID (validRequests now rl.window (rl.limits userID))
  (rl1.maxReq - (rl1.limits userID).length, rl1)

/-- `RateLimiter.GetResetTime`, reading the clock as `now`. -/
def RateLimiter.GetResetTime (rl : RateLimiter) (userID : String) (now : Time) :
    Time × RateLimiter :=
  match rl.limits userID with
  | [] => (now, rl)
  | oldest :: _ => (oldest + rl.window, rl)

/-- One call on a limiter: the method, its key and the instant the clock shows. -/
inductive Call where
  | isAllowed (userID : String) (now : Time)
  | getRemainingRequests (userID : String) (now : Time)
  | getResetTime (userID : String) (now : Time)

/-- The instant at which a call reads the clock. -/
def Call.instant : Call → Time
  | .isAllowed _ now => now
  | .getRemainingRequests _ now => now
  | .getResetTime _ now => now

/-- The limiter after one call. -/
def stepCall (rl : RateLimiter) : Call → RateLimiter
  | .isAllowed userID now => (rl.IsAllowed userID now).2
  | .getRemainingRequests userID now => (rl.GetRemainingRequests userID now).2
  | .getResetTime userID now => (rl.GetResetTime userID now).2

/-- The limiter after a sequence of calls, issued one after the other. -/
def runCalls (rl : RateLimiter) (cs : List Call) : RateLimiter :=
  cs.foldl stepCall rl

/-- What one call adds to the admissions of `userID`: the instant of the call
when it is an `IsAllowed(userID)` that returns true in state `rl`, nothing
otherwise. -/
def admission (userID : String) (rl : RateLimiter) : Call → List Time
  | .isAllowed k now => if k = userID ∧ (rl.IsAllowed k now).1 = true then [now] else []
  | .getRemainingRequests _ _ => []
  | .getResetTime _ _ => []

/-- The instants at which `IsAllowed(userID)` returned true along a sequence of
calls started in `rl`, in call order. -/
def admissions (userID : String) : RateLimiter → List Call → List Time
  | _, [] => []
  | rl, c :: cs => admission userID rl c ++ admissions userID (stepCall rl c) cs

/-- The timestamps of `l` in the span `(s - w, s]`, the `w` up to and
including `s`. -/
def inSpan (s : Time) (w : Duration) (l : List Time) : List Time :=
  l.filter (fun t => decide (s - w < t ∧ t ≤ s))

/-- The states a limiter built by `NewRateLimiter(q, w)` can reach through its
three methods, called with any keys and at any instants. -/
inductive Reachable (q : Int) (w : Duration) : RateLimiter → Prop
  | init : Reachable q w (NewRateLimiter q w)
  | step (rl : RateLimiter) (c : Call) : Reachable q w rl → Reachable q w (stepCall rl c)

/-- The results of calling `IsAllowed(userID)` once at each instant of `ts`, in
order, starting in `rl`. -/
def allowedResults (userID : String) : RateLimiter → List Time → List Bool
  | _, [] => []
  | rl, now :: ts =>
    (rl.IsAllowed userID now).1 :: allowedResults userID (rl.IsAllowed userID now).2 ts

end security

namespace music

/-- The `Track` struct of `player.go`; `Duration` is in nanoseconds. -/
structure Track where
  ID : String
  Title : String
  URL : String
  Duration : Int
  Thumbnail : String
  Uploader : String
  deriving DecidableEq, Repr

/-- The `VoiceConnection` struct of `player.go`. -/
structure VoiceConnection where
  ChannelID : String
  Connected : Bool
  deriving DecidableEq, Repr

/-- A `float64` as far as comparisons see it: not-a-number, the two infinities
and the finite values, each finite value standing for the rational it denotes. -/
inductive F64 where
  | nan
  | negInf
  | posInf
  | fin (q : Rat)
  deriving DecidableEq

/-- The `Player` struct of `player.go`, without its mutex. -/
structure Player where
  Queue : List (Option Track)
  Playing : Bool
  Current : Option Track
  volume : F64
  voiceConn : Option VoiceConnection
  deriving DecidableEq

/-- `NewPlayer()`: an empty queue, volume `1.0`, a voice connection that is not
connected; `Playing` and `Current` keep their zero values. -/
def NewPlayer : Player :=
  { Queue := []
    Playing := false
    Current := none
    volume := F64.fin 1
    voiceConn := some { ChannelID := "", Connected := false } }

/-- `Player.AddToQueue`: `p.Queue = append(p.Queue, track)`. -/
def Player.AddToQueue (p : Player) (track : Option Track) : Player :=
  { p with Queue := p.Queue ++ [track] }

/-- `Player.Play`: the new state and the returned error (`none` is the nil
error). -/
def Player.Play (p : Player) : Player × Option String :=
  if p.Playing && p.Current.isSome then
    (p, none)
  else
    match p.Queue with
    | [] => (p, some "queue is empty")
    | head :: rest => ({ p with Current := head, Queue := rest, Playing := true }, none)

/-- `Player.Skip`: the new state and the returned error. -/
def Player.Skip (p : Player) : Player × Option String :=
  match p.Queue with
  | head :: rest => ({ p with Current := head, Queue := rest }, none)
  | [] => ({ p with Playing := false, Current := none }, some "queue is empty")

/-- `Player.GetQueue`: a copy of the queue. -/
def Player.GetQueue (p : Player) : List (Option Track) :=
  p.Queue

/-- The first track of `TestQueueOperations`. -/
def track1 : Track :=
  { ID := "", Title := "Song 1", URL := "url1", Duration := 0, Thumbnail := "", Uploader := "" }

/-- The second track of `TestQueueOperations`. -/
def track2 : Track :=
  { ID := "", Title := "Song 2", URL := "url2", Duration := 0, Thumbnail := "", Uploader := "" }

/-- A session that plays `track1` with `track2` queued. -/
def playingSession : Player :=
  { NewPlayer with Playing := true, Current := some track1, Queue := [some track2] }

/-- A paused session on `track1` with `track2` queued. -/
def pausedSession : Player :=
  { NewPlayer with Current := some track1, Queue := [some track2] }

/-- A session that plays `track1` with nothing queued. -/
def lastTrackSession : Player :=
  { NewPlayer with Playing := true, Current := some track1 }

/-- The session after `AddToQueue` was called with each track of `ts`, in order. -/
def addAll (p : Player) (ts : List (Option Track)) : Player :=
  ts.foldl Player.AddToQueue p

/-- The session after `k` calls of `Skip`, one after the other. -/
def skips : Nat → Player → Player
  | 0, p => p
  | k + 1, p => skips k p.Skip.1

/-- The comparison `a < b` of two `float64` values: false as soon as one of
them is not-a-number. -/
def F64.lt : F64 → F64 → Bool
  | .nan, _ => false
  | _, .nan => false
  | .negInf, .negInf => false
  | .negInf, _ => true
  | _, .negInf => false
  | .posInf, _ => false
  | .fin _, .posInf => true
  | .fin a, .fin b => decide (a < b)

/-- The `float64` values of the interval `[0, 1]`. -/
def F64.inUnitInterval : F64 → Prop
  | .fin q => 0 ≤ q ∧ q ≤ 1
  | _ => False

/-- `Player.Pause`: `p.Playing = false`. -/
def Player.Pause (p : Player) : Player :=
  { p with Playing := false }

/-- `Player.Resume`: `p.Playing = true` when a current track is set. -/
def Player.Resume (p : Player) : Player :=
  if p.Current.isSome then { p with Playing := true } else p

/-- `Player.Stop`: not playing, no current track, a fresh empty queue. -/
def Player.Stop (p : Player) : Player :=
  { p with Playing := false, Current := none, Queue := [] }

/-- `Player.SetVolume`: `volume` is replaced by `0.0` when `volume < 0.0`, else
by `1.0` when `volume > 1.0`, and then stored. -/
def Player.SetVolume (p : Player) (volume : F64) : Player :=
  let volume :=
    if F64.lt volume (.fin 0) then F64.fin 0
    else if F64.lt (.fin 1) volume then F64.fin 1
    else volume
  { p with volume := volume }

/-- `Player.GetVolume`. -/
def Player.GetVolume (p : Player) : F64 :=
  p.volume

/-- `Player.GetCurrentTrack`. -/
def Player.GetCurrentTrack (p : Player) : Option Track :=
  p.Current

/-- `Player.GetQueueLength`. -/
def Player.GetQueueLength (p : Player) : Int :=
  p.Queue.length

/-- `Player.IsPlaying`. -/
def Player.IsPlaying (p : Player) : Bool :=
  p.Playing

/-- `Player.ClearQueue`: a fresh empty queue. -/
def Player.ClearQueue (p : Player) : Player :=
  { p with Queue := [] }

/-- `Player.RemoveFromQueue`: the new state and the returned error. In range,
the queue becomes `append(p.Queue[:index], p.Queue[index+1:]...)`. -/
def Player.RemoveFromQueue (p : Player) (index : Int) : Player × Option String :=
  if index < 0 ∨ index ≥ p.Queue.length then
    (p, some "index out of range")
  else
    ({ p with Queue := p.Queue.take index.toNat ++ p.Queue.drop (index.toNat + 1) }, none)

/-- `Player.MoveInQueue`: the new state and the returned error. With both
indices in range and different, the track at `fromIdx` is read, taken out of
the queue, `toIdx` is decremented when `toIdx > fromIdx`, and the track is put
back in front of what is then at `toIdx`. (The read `p.Queue[from]` is in range
by the guard; the default of `getD` is never used.) -/
def Player.MoveInQueue (p : Player) (fromIdx toIdx : Int) : Player × Option String :=
  if fromIdx < 0 ∨ fromIdx ≥ p.Queue.length ∨ toIdx < 0 ∨ toIdx ≥ p.Queue.length then
    (p, some "index out of range")
  else if fromIdx = toIdx then
    (p, none)
  else
    let track := p.Queue.getD fromIdx.toNat none
    let removed := p.Queue.take fromIdx.toNat ++ p.Queue.drop (fromIdx.toNat + 1)
    let toIdx := if toIdx > fromIdx then toIdx - 1 else toIdx
    ({ p with Queue := removed.take toIdx.toNat ++ ([track] ++ removed.drop toIdx.toNat) }, none)

/-- `Player.ConnectToVoice`: writes through the `voiceConn` pointer; the outer
`none` is the run-time panic of Go on a nil `voiceConn`. -/
def Player.ConnectToVoice (p : Player) (channelID : String) :
    Option (Player × Option String) :=
  match p.voiceConn with
  | none => none
  | some _ =>
    some ({ p with voiceConn := some { ChannelID := channelID, Connected := true } }, none)

/-- `Player.DisconnectFromVoice`: writes through the `voiceConn` pointer; the
outer `none` is the run-time panic of Go on a nil `voiceConn`. -/
def Player.DisconnectFromVoice (p : Player) : Option (Player × Option String) :=
  match p.voiceConn with
  | none => none
  | some _ =>
    some ({ p with voiceConn := some { ChannelID := "", Connected := false } }, none)

/-- `Player.IsConnectedToVoice`; `none` is the panic on a nil `voiceConn`. -/
def Player.IsConnectedToVoice (p : Player) : Option Bool :=
  p.voiceConn.map (fun vc => vc.Connected)

/-- The public operations of `Player` that write to the session, with their
arguments. (The read accessors return a value and leave the session as it is.) -/
inductive Op where
  | addToQueue (track : Option Track)
  | play
  | pause
  | resume
  | stop
  | skip
  | setVolume (volume : F64)
  | clearQueue
  | removeFromQueue (index : Int)
  | moveInQueue (fromIdx toIdx : Int)
  | connectToVoice (channelID : String)
  | disconnectFromVoice

/-- The session after one operation; `none` when the operation panics. -/
def applyOp (p : Player) : Op → Option Player
  | .addToQueue track => some (p.AddToQueue track)
  | .play => some p.Play.1
  | .pause => some p.Pause
  | .resume => some p.Resume
  | .stop => some p.Stop
  | .skip => some p.Skip.1
  | .setVolume volume => some (p.SetVolume volume)
  | .clearQueue => some p.ClearQueue
  | .removeFromQueue index => some (p.RemoveFromQueue index).1
  | .moveInQueue fromIdx toIdx => some (p.MoveInQueue fromIdx toIdx).1
  | .connectToVoice channelID => (p.ConnectToVoice channelID).map (fun r => r.1)
  | .disconnectFromVoice => p.DisconnectFromVoice.map (fun r => r.1)

/-- The session after a sequence of operations, run one after the other. -/
def runOps (p : Player) : List Op → Option Player
  | [] => some p
  | op :: ops =>
    match applyOp p op with
    | none => none
    | some p1 => runOps p1 ops

/-- The arguments of the `AddToQueue` calls of a sequence of operations, in
call order. -/
def addedTracks : List Op → List (Option Track)
  | [] => []
  | .addToQueue track :: ops => track :: addedTracks ops
  | _ :: ops => addedTracks ops

/-- A third track, next to the two of `TestQueueOperations`. -/
def track3 : Track :=
  { ID := "", Title := "Song 3", URL := "url3", Duration := 0, Thumbnail := "", Uploader := "" }

/-- A paused session on `track1` with nothing queued. -/
def pausedLastSession : Player :=
  { NewPlayer with Current := some track1 }

/-- A session that plays `track2` with `track3` queued. -/
def secondTrackSession : Player :=
  { NewPlayer with Playing := true, Current := some track2, Queue := [some track3] }

/-- A session whose queue is `[A, B, C]`. -/
def queueABC : Player :=
  { NewPlayer with Queue := [some track1, some track2, some track3] }

/-- The arguments of the `SetVolume` calls of a sequence of operations, in
call order. -/
def setVolumes : List Op → List F64
  | [] => []
  | .setVolume volume :: ops => volume :: setVolumes ops
  | _ :: ops => setVolumes ops

/-- Whether an operation, about to run on session `p`, is not an `AddToQueue`
of a track that `p` holds at that moment, as its current track or in its
queue. -/
def freshAdd (p : Player) : Op → Bool
  | .addToQueue (some t) => decide (some t ∉ p.Queue ∧ p.Current ≠ some t)
  | _ => true

/-- Whether, along a sequence of operations run from session `p`, no
`AddToQueue` is given a track that the session holds at the moment of the
call. -/
def addsFresh (p : Player) : List Op → Bool
  | [] => true
  | op :: ops =>
    freshAdd p op &&
      match applyOp p op with
      | none => true
      | some p1 => addsFresh p1 ops

/-- A paused session on `track1` whose queue holds one nil pointer. -/
def pausedNilHeadSession : Player :=
  { NewPlayer with Current := some track1, Queue := [none] }

/-- A session that plays `track2` with `track1` queued. -/
def readdedSession : Player :=
  { NewPlayer with Playing := true, Current := some track2, Queue := [some track1] }

/-- A fresh session with `track1` loaded and playing, volume `0.0`. -/
def mutedSession : Player :=
  { NewPlayer with Playing := true, Current := some track1, volume := F64.fin 0 }

end music

namespace security

/-- Where a goroutine stands inside the body of `IsAllowed`: before the
clean-up loop, before the assignment `rl.limits[userID] = validRequests` (with
the slice the loop built), before the test of the limit, before the `append`
of `now`, or returned with its result. The body takes no lock, so another
goroutine can run between any two of these statements. -/
inductive IsAllowedPc where
  | cleanUp
  | assign (validRequests : List Time)
  | test
  | record
  | returned (allowed : Bool)
  deriving DecidableEq

/-- A goroutine running `IsAllowed(userID)`, with the value `now` it read from
the clock on entry. -/
structure Goroutine where
  userID : String
  now : Time
  pc : IsAllowedPc

/-- A goroutine about to enter the body of `IsAllowed(userID)` at `now`. -/
def Goroutine.start (userID : String) (now : Time) : Goroutine :=
  { userID := userID, now := now, pc := .cleanUp }

/-- One statement of `IsAllowed` run by a goroutine on the shared limiter. -/
def stepGoroutine (rl : RateLimiter) (g : Goroutine) : RateLimiter × Goroutine :=
  match g.pc with
  | .cleanUp =>
    (rl, { g with pc := .assign (validRequests g.now rl.window (rl.limits g.userID)) })
  | .assign v => (setLimit rl g.userID v, { g with pc := .test })
  | .test =>
    if (rl.limits g.userID).length ≥ rl.maxReq then (rl, { g with pc := .returned false })
    else (rl, { g with pc := .record })
  | .record =>
    (setLimit rl g.userID (rl.limits g.userID ++ [g.now]), { g with pc := .returned true })
  | .returned _ => (rl, g)

/-- Two goroutines on one limiter; a schedule says, statement by statement,
which of the two runs next (`false` the first, `true` the second). -/
def runSchedule (rl : RateLimiter) (g1 g2 : Goroutine) :
    List Bool → RateLimiter × Goroutine × Goroutine
  | [] => (rl, g1, g2)
  | false :: rest => runSchedule (stepGoroutine rl g1).1 (stepGoroutine rl g1).2 g2 rest
  | true :: rest => runSchedule (stepGoroutine rl g2).1 g1 (stepGoroutine rl g2).2 rest

/-- The type `Permission` of `security.go`, a string. -/
abbrev Permission := String

/-- `PermissionAdmin`. -/
def PermissionAdmin : Permission := "admin"

/-- `PermissionMusic`. -/
def PermissionMusic : Permission := "music"

/-- `PermissionDownload`. -/
def PermissionDownload : Permission := "download"

/-- `PermissionAI`. -/
def PermissionAI : Permission := "ai"

/-- `HasPermission`: the loop returns true at the first permission equal to
`required` or to `PermissionAdmin`, false when it runs off the slice. -/
def HasPermission : List Permission → Permission → Bool
  | [], _ => false
  | perm :: rest, required =>
    if perm = required ∨ perm = PermissionAdmin then true else HasPermission rest required

/-- A Go `string`: the sequence of its bytes, each a number below 256. -/
abbrev GoString := List Nat

/-- The UTF-8 bytes of a string literal. -/
def utf8 (s : String) : GoString :=
  s.toList.flatMap (fun c => (String.utf8EncodeChar c).map UInt8.toNat)

/-- The bytes of the character class `[<>{}[\]()&|;]` of `SanitizeInput`:
`<`, `>`, `{`, `}`, `[`, `]`, `(`, `)`, `&`, `|` and `;`. -/
def dangerousBytes : List Nat :=
  [60, 62, 123, 125, 91, 93, 40, 41, 38, 124, 59]

/-- `regexp.MustCompile(...).ReplaceAllString(input, "")` for the class of
`SanitizeInput`: every match is one byte of the class (the bytes of a
multi-byte or invalid sequence are all 0x80 or more and are copied), so what
is left is the input without those bytes. -/
def removeDangerous (input : GoString) : GoString :=
  input.filter (fun c => !dangerousBytes.contains c)

/-- `utf8.RuneError`, U+FFFD. -/
def RuneError : Nat := 0xFFFD

/-- The table `asciiSpace` of package `strings`: tab, line feed, vertical tab,
form feed, carriage return and space. -/
def asciiSpace (c : Nat) : Bool :=
  c = 9 || c = 10 || c = 11 || c = 12 || c = 13 || c = 32

/-- `unicode.IsSpace`: in Latin-1 the six ASCII spaces, U+0085 and U+00A0;
beyond it the `White_Space` table. -/
def IsSpace (r : Nat) : Bool :=
  if r ≤ 0xFF then
    r = 9 || r = 10 || r = 11 || r = 12 || r = 13 || r = 32 || r = 0x85 || r = 0xA0
  else
    r = 0x1680 || (0x2000 ≤ r && r ≤ 0x200A) || r = 0x2028 || r = 0x2029 || r = 0x202F
      || r = 0x205F || r = 0x3000

/-- `utf8.DecodeRuneInString`: the first rune of `s` and its width in bytes;
`(RuneError, 0)` on the empty string and `(RuneError, 1)` on an invalid
encoding. The size and the range accepted for the second byte are those of the
table `first`. -/
def DecodeRuneInString (s : GoString) : Nat × Nat :=
  match s with
  | [] => (RuneError, 0)
  | s0 :: rest =>
    if s0 < 0x80 then (s0, 1)
    else if s0 < 0xC2 ∨ 0xF4 < s0 then (RuneError, 1)
    else
      let sz := if s0 < 0xE0 then 2 else if s0 < 0xF0 then 3 else 4
      let lo := if s0 = 0xE0 then 0xA0 else if s0 = 0xF0 then 0x90 else 0x80
      let hi := if s0 = 0xED then 0x9F else if s0 = 0xF4 then 0x8F else 0xBF
      if s.length < sz then (RuneError, 1)
      else
        match rest with
        | [] => (RuneError, 1)
        | s1 :: rest1 =>
          if s1 < lo ∨ hi < s1 then (RuneError, 1)
          else if sz ≤ 2 then ((s0 % 32) * 64 + s1 % 64, 2)
          else
            match rest1 with
            | [] => (RuneError, 1)
            | s2 :: rest2 =>
              if s2 < 0x80 ∨ 0xBF < s2 then (RuneError, 1)
              else if sz ≤ 3 then ((s0 % 16) * 4096 + (s1 % 64) * 64 + s2 % 64, 3)
              else
                match rest2 with
                | [] => (RuneError, 1)
                | s3 :: _ =>
                  if s3 < 0x80 ∨ 0xBF < s3 then (RuneError, 1)
                  else ((s0 % 8) * 262144 + (s1 % 64) * 4096 + (s2 % 64) * 64 + s3 % 64, 4)

/-- `utf8.RuneStart`: the byte is not a continuation byte. -/
def RuneStart (b : Nat) : Bool :=
  !(0x80 ≤ b && b < 0xC0)

/-- The backward scan of `utf8.DecodeLastRuneInString` for the start of the last
rune. The argument is `start + 1`, so that 0 stands for `start = -1`; the scan
stops below `lim`, or at a byte that starts a rune; a negative `start` is
replaced by 0. -/
def lastRuneStart (s : GoString) (lim : Nat) : Nat → Nat
  | 0 => 0
  | start + 1 =>
    if start < lim then start
    else if RuneStart (s.getD start 0) then start
    else lastRuneStart s lim start

/-- `utf8.DecodeLastRuneInString`: the last rune of `s` and its width. -/
def DecodeLastRuneInString (s : GoString) : Nat × Nat :=
  match s.getLast? with
  | none => (RuneError, 0)
  | some b =>
    if b < 0x80 then (b, 1)
    else
      let start := lastRuneStart s (s.length - 4) (s.length - 1)
      let d := DecodeRuneInString (s.drop start)
      if start + d.2 ≠ s.length then (RuneError, 1) else d

/-- `strings.TrimLeftFunc(s, unicode.IsSpace)`: `s` from its first rune that
is not a space on, empty when there is none. One unit of fuel per rune. -/
def TrimLeftFunc : Nat → GoString → GoString
  | 0, _ => []
  | fuel + 1, s =>
    match s with
    | [] => []
    | _ :: _ =>
      if IsSpace (DecodeRuneInString s).1 = false then s
      else TrimLeftFunc fuel (s.drop (DecodeRuneInString s).2)

/-- The loop `lastIndexFunc(s, unicode.IsSpace, false)` of package `strings`,
from index `i` down: the index of the last rune that is not a space, `none`
for -1. One unit of fuel per rune. -/
def lastIndexFunc (s : GoString) : Nat → Nat → Option Nat
  | 0, _ => none
  | fuel + 1, i =>
    if i = 0 then none
    else if IsSpace (DecodeLastRuneInString (s.take i)).1 = false then
      some (i - (DecodeLastRuneInString (s.take i)).2)
    else lastIndexFunc s fuel (i - (DecodeLastRuneInString (s.take i)).2)

/-- `strings.TrimRightFunc(s, unicode.IsSpace)`: `s` up to and including its
last rune that is not a space. -/
def TrimRightFunc (s : GoString) : GoString :=
  match lastIndexFunc s s.length s.length with
  | none => []
  | some i =>
    if s.getD i 0 ≥ 0x80 then s.take (i + (DecodeRuneInString (s.drop i)).2)
    else s.take (i + 1)

/-- `strings.TrimFunc(s, unicode.IsSpace)`. -/
def TrimFunc (s : GoString) : GoString :=
  TrimRightFunc (TrimLeftFunc s.length s)

/-- The second loop of `strings.TrimSpace`, on the string `t` left by the first
one: `stop` runs down from `len(t)`; a byte of 0x80 or more hands over to
`TrimRightFunc`, an ASCII byte that is not a space ends the loop. -/
def trimRightAscii (t : GoString) : Nat → GoString
  | 0 => []
  | stop + 1 =>
    if t.getD stop 0 ≥ 0x80 then TrimRightFunc (t.take (stop + 1))
    else if asciiSpace (t.getD stop 0) = false then t.take (stop + 1)
    else trimRightAscii t stop

/-- `strings.TrimSpace`: the first loop drops leading ASCII spaces; a byte of
0x80 or more hands over to `TrimFunc`; at the first ASCII byte that is not a
space the second loop takes over. -/
def TrimSpace : GoString → GoString
  | [] => []
  | c :: rest =>
    if c ≥ 0x80 then TrimFunc (c :: rest)
    else if asciiSpace c = false then trimRightAscii (c :: rest) (c :: rest).length
    else TrimSpace rest

/-- `SanitizeInput` of `security.go`. -/
def SanitizeInput (input : GoString) : GoString :=
  let sanitized := removeDangerous input
  let sanitized := if sanitized.length > 2000 then sanitized.take 2000 else sanitized
  TrimSpace sanitized

/-- The slice expression `s[i:]`: `none` is the run-time panic of Go when `i`
is beyond `len(s)`. -/
def sliceFrom (s : GoString) (i : Nat) : Option GoString :=
  if i ≤ s.length then some (s.drop i) else none

/-- The input of `TestSanitizeInput`. -/
def xssInput : GoString :=
  utf8 "<script>alert('xss')</script>Hello & welcome;"

end security

namespace openrouter

/-- The part of `http.Client` the constructor sets: the timeout, in nanoseconds. -/
structure HTTPClient where
  Timeout : Int
  deriving DecidableEq

/-- The `Client` struct of `client.go`. -/
structure Client where
  apiKey : String
  httpClient : Option HTTPClient
  deriving DecidableEq

/-- `ModelClaude3Sonnet`. -/
def ModelClaude3Sonnet : String := "claude-3-sonnet"

/-- `ModelLLaVA`. -/
def ModelLLaVA : String := "llava-v1.5-7b-4bit"

/-- `ModelMistral7B`. -/
def ModelMistral7B : String := "mistralai/mistral-7b-instruct"

/-- `ModelZephyr7B`. -/
def ModelZephyr7B : String := "huggingfaceh4/zephyr-7b-beta"

/-- `ModelMythoMax`. -/
def ModelMythoMax : String := "gryphe/mythomax-l2-13b"

/-- `ModelToppyM`. -/
def ModelToppyM : String := "undi95/toppy-m-7b"

/-- `ModelOpenChat`. -/
def ModelOpenChat : String := "openchat/openchat-7b"

/-- `ModelSonomaDusk`. -/
def ModelSonomaDusk : String := "openrouter/sonoma-dusk-alpha"

/-- `NewClient(apiKey)`: the key and an HTTP client with a timeout of 30 s. -/
def NewClient (apiKey : String) : Client :=
  { apiKey := apiKey, httpClient := some { Timeout := 30 * 1000000000 } }

/-- `Client.SupportedModels`: the slice literal of `client.go`. -/
def Client.SupportedModels (_c : Client) : List String :=
  [ModelClaude3Sonnet, ModelLLaVA, ModelMistral7B, ModelZephyr7B, ModelMythoMax, ModelToppyM,
    ModelOpenChat, ModelSonomaDusk]

/-- The list `expectedModels` of `TestSupportedModels`. -/
def expectedModels : List String :=
  [ModelClaude3Sonnet, ModelLLaVA, ModelMistral7B, ModelZephyr7B]

end openrouter

namespace bot

/-- The field `RateLimiter` of the `Bot` that `main` builds:
`security.NewRateLimiter(5, 60)`. The second parameter is a `time.Duration`, so
the untyped constant `60` is 60 nanoseconds. -/
def RateLimiter : security.RateLimiter :=
  security.NewRateLimiter 5 60

/-- The start of `handleCommandMessage` after the rate limit: the message
content is sanitized and its first byte, the prefix, is cut off by
`content[1:]`; `none` when that slice expression panics. -/
def commandText (mContent : security.GoString) : Option security.GoString :=
  security.sliceFrom (security.SanitizeInput mContent) 1

/-- The test of `handleGuildMessage` that sends a message to
`handleCommandMessage`: `len(m.Content) >= 1 && m.Content[0] == '/'`. -/
def isCommand (mContent : security.GoString) : Bool :=
  match mContent with
  | [] => false
  | c :: _ => c = '/'.toNat

/-- One minute as a `time.Duration`: `time.Minute`, 60 * 10^9 nanoseconds. -/
def Minute : security.Duration := 60 * 1000000000

/-- One second as a `time.Duration`: `time.Second`, 10^9 nanoseconds. -/
def Second : security.Duration := 1000000000

end bot

namespace security

/-! ## General facts about the clean-up loop -/

theorem validRequests_eq_filter (now : Time) (window : Duration) (h : List Time) :
    validRequests now window h = h.filter (fun t => decide (now - t < window)) := by
  induction h with
  | nil => rfl
  | cons t rest ih =>
    by_cases c : now - t < window <;> simp [validRequests, c, ih]

theorem validRequests_length_le (now : Time) (window : Duration) (h : List Time) :
    (validRequests now window h).length ≤ h.length := by
  rw [validRequests_eq_filter]
  exact List.length_filter_le _ _

/-- Pruning at a later instant absorbs pruning at an earlier one. -/
theorem validRequests_validRequests (now now2 : Time) (window : Duration) (h : List Time)
    (hle : now ≤ now2) :
    validRequests now2 window (validRequests now window h) = validRequests now2 window h := by
  simp only [validRequests_eq_filter, List.filter_filter]
  apply List.filter_congr
  intro t _
  by_cases c : now2 - t < window
  · have c2 : now - t < window := by linarith
    simp [c, c2]
  · simp [c]

theorem validRequests_append (now : Time) (window : Duration) (h1 h2 : List Time) :
    validRequests now window (h1 ++ h2)
      = validRequests now window h1 ++ validRequests now window h2 := by
  simp [validRequests_eq_filter]

/-- A pruned list as long as the list it came from is that list. -/
theorem validRequests_eq_self_of_length (now : Time) (window : Duration) (h : List Time)
    (hlen : h.length ≤ (validRequests now window h).length) :
    validRequests now window h = h := by
  rw [validRequests_eq_filter] at *
  exact List.Sublist.eq_of_length_le (List.filter_sublist h) hlen

theorem isAllowed_fst (rl : RateLimiter) (k : String) (now : Time) :
    (rl.IsAllowed k now).1
      = decide (((validRequests now rl.window (rl.limits k)).length : Int) < rl.maxReq) := by
  by_cases h : ((validRequests now rl.window (rl.limits k)).length : Int) < rl.maxReq
  · have h2 : ¬ (((validRequests now rl.window (rl.limits k)).length : Int) ≥ rl.maxReq) := by
      omega
    simp [RateLimiter.IsAllowed, setLimit, h, h2]
  · have h2 : ((validRequests now rl.window (rl.limits k)).length : Int) ≥ rl.maxReq := by
      omega
    simp [RateLimiter.IsAllowed, setLimit, h, h2]

theorem isAllowed_limits_self (rl : RateLimiter) (k : String) (now : Time) :
    (rl.IsAllowed k now).2.limits k
      = if ((validRequests now rl.window (rl.limits k)).length : Int) < rl.maxReq
        then validRequests now rl.window (rl.limits k) ++ [now]
        else validRequests now rl.window (rl.limits k) := by
  by_cases h : ((validRequests now rl.window (rl.limits k)).length : Int) < rl.maxReq
  · have h2 : ¬ (((validRequests now rl.window (rl.limits k)).length : Int) ≥ rl.maxReq) := by
      omega
    simp [RateLimiter.IsAllowed, setLimit, h, h2]
  · have h2 : ((validRequests now rl.window (rl.limits k)).length : Int) ≥ rl.maxReq := by
      omega
    simp [RateLimiter.IsAllowed, setLimit, h, h2]

theorem isAllowed_limits_other (rl : RateLimiter) (k k2 : String) (now : Time)
    (hne : k2 ≠ k) : (rl.IsAllowed k now).2.limits k2 = rl.limits k2 := by
  unfold RateLimiter.IsAllowed
  dsimp only
  split <;> simp [setLimit, hne]

theorem isAllowed_maxReq (rl : RateLimiter) (k : String) (now : Time) :
    (rl.IsAllowed k now).2.maxReq = rl.maxReq := by
  unfold RateLimiter.IsAllowed
  dsimp only
  split <;> simp [setLimit]

theorem isAllowed_window (rl : RateLimiter) (k : String) (now : Time) :
    (rl.IsAllowed k now).2.window = rl.window := by
  unfold RateLimiter.IsAllowed
  dsimp only
  split <;> simp [setLimit]

theorem getRemainingRequests_limits_self (rl : RateLimiter) (k : String) (now : Time) :
    (rl.GetRemainingRequests k now).2.limits k = validRequests now rl.window (rl.limits k) := by
  simp [RateLimiter.GetRemainingRequests, setLimit]

theorem getRemainingRequests_limits_other (rl : RateLimiter) (k k2 : String) (now : Time)
    (hne : k2 ≠ k) : (rl.GetRemainingRequests k now).2.limits k2 = rl.limits k2 := by
  simp [RateLimiter.GetRemainingRequests, setLimit, hne]

theorem getRemainingRequests_fst (rl : RateLimiter) (k : String) (now : Time) :
    (rl.GetRemainingRequests k now).1
      = rl.maxReq - ((validRequests now rl.window (rl.limits k)).length : Int) := by
  simp [RateLimiter.GetRemainingRequests, setLimit]

theorem getResetTime_snd (rl : RateLimiter) (k : String) (now : Time) :
    (rl.GetResetTime k now).2 = rl := by
  unfold RateLimiter.GetResetTime
  split <;> rfl

theorem stepCall_maxReq (rl : RateLimiter) (c : Call) : (stepCall rl c).maxReq = rl.maxReq := by
  cases c with
  | isAllowed k now => exact isAllowed_maxReq rl k now
  | getRemainingRequests k now => rfl
  | getResetTime k now => simp [stepCall, getResetTime_snd]

theorem stepCall_window (rl : RateLimiter) (c : Call) : (stepCall rl c).window = rl.window := by
  cases c with
  | isAllowed k now => exact isAllowed_window rl k now
  | getRemainingRequests k now => rfl
  | getResetTime k now => simp [stepCall, getResetTime_snd]

/-! ## The sliding-window bound -/

theorem admission_isAllowed_self (k : String) (rl : RateLimiter) (now : Time) :
    admission k rl (.isAllowed k now)
      = if ((validRequests now rl.window (rl.limits k)).length : Int) < rl.maxReq
        then [now] else [] := by
  by_cases h : ((validRequests now rl.window (rl.limits k)).length : Int) < rl.maxReq
  · simp [admission, isAllowed_fst, h]
  · simp [admission, isAllowed_fst, h]

theorem admission_isAllowed_other (userID k : String) (rl : RateLimiter) (now : Time)
    (hne : k ≠ userID) : admission userID rl (.isAllowed k now) = [] := by
  simp [admission, hne]

/-- What is in the span ending at `s` is still valid at every `now ≤ s`. -/
theorem inSpan_length_le_validRequests (s now : Time) (w : Duration) (l : List Time)
    (hle : now ≤ s) : (inSpan s w l).length ≤ (validRequests now w l).length := by
  rw [validRequests_eq_filter]
  apply List.Sublist.length_le
  apply List.monotone_filter_right
  intro t ht
  have h := of_decide_eq_true ht
  have : now - t < w := by linarith [h.1]
  simpa using this

theorem inSpan_append (s : Time) (w : Duration) (l1 l2 : List Time) :
    inSpan s w (l1 ++ l2) = inSpan s w l1 ++ inSpan s w l2 := by
  simp [inSpan]

theorem inSpan_singleton_length_le (s : Time) (w : Duration) (t : Time) :
    (inSpan s w [t]).length ≤ 1 := by
  unfold inSpan
  exact (List.length_filter_le _ _).trans (by simp)

theorem inSpan_singleton_of_lt (s : Time) (w : Duration) (t : Time) (h : s < t) :
    inSpan s w [t] = [] := by
  have : ¬ (s - w < t ∧ t ≤ s) := by
    intro c
    exact absurd c.2 (not_le.2 h)
  simp [inSpan, this]

/-- The invariant behind the sliding-window bound. `past` holds the instants
admitted so far for the key; at every instant still to come the stored history
and `past` prune to the same list, and no span of length `w` holds more than `q`
instants of `past`. Both survive every call. -/
theorem window_bound_aux (userID : String) (q : Int) (w : Duration) :
    ∀ (cs : List Call) (rl : RateLimiter) (past : List Time),
      rl.maxReq = q → rl.window = w →
      (cs.map Call.instant).Pairwise (· ≤ ·) →
      (∀ c ∈ cs, validRequests c.instant w (rl.limits userID)
          = validRequests c.instant w past) →
      (∀ s, ((inSpan s w past).length : Int) ≤ q) →
      ∀ s, ((inSpan s w (past ++ admissions userID rl cs)).length : Int) ≤ q := by
  intro cs
  induction cs with
  | nil =>
    intro rl past _ _ _ _ hb s
    simpa [admissions] using hb s
  | cons c cs ih =>
    intro rl past hq hw hmono hsync hb s
    rw [List.map_cons, List.pairwise_cons] at hmono
    obtain ⟨hfirst, hrest⟩ := hmono
    have hc := hsync c (List.mem_cons_self _ _)
    have hunfold : admissions userID rl (c :: cs)
        = admission userID rl c ++ admissions userID (stepCall rl c) cs := rfl
    rw [hunfold, ← List.append_assoc]
    apply ih (stepCall rl c) _ (by rw [stepCall_maxReq, hq]) (by rw [stepCall_window, hw]) hrest
    · intro c2 hc2
      have hle : c.instant ≤ c2.instant := hfirst _ (List.mem_map_of_mem _ hc2)
      have h2 := hsync c2 (List.mem_cons_of_mem _ hc2)
      generalize c2.instant = now2 at hle h2 ⊢
      cases c with
      | isAllowed k now =>
        have hle2 : now ≤ now2 := hle
        by_cases hk : k = userID
        · subst hk
          rw [admission_isAllowed_self]
          show validRequests now2 w ((rl.IsAllowed k now).2.limits k) = _
          rw [isAllowed_limits_self, hw]
          by_cases hlt : ((validRequests now w (rl.limits k)).length : Int) < rl.maxReq
          · rw [if_pos hlt, if_pos hlt, validRequests_append, validRequests_append,
              validRequests_validRequests _ _ _ _ hle2, h2]
          · rw [if_neg hlt, if_neg hlt, validRequests_validRequests _ _ _ _ hle2, h2,
              List.append_nil]
        · have hne : userID ≠ k := fun e => hk e.symm
          rw [admission_isAllowed_other _ _ _ _ hk, List.append_nil]
          show validRequests now2 w ((rl.IsAllowed k now).2.limits userID) = _
          rw [isAllowed_limits_other _ _ _ _ hne, h2]
      | getRemainingRequests k now =>
        have hle2 : now ≤ now2 := hle
        show validRequests now2 w ((rl.GetRemainingRequests k now).2.limits userID)
          = validRequests now2 w (past ++ [])
        rw [List.append_nil]
        by_cases hk : k = userID
        · subst hk
          rw [getRemainingRequests_limits_self, hw, validRequests_validRequests _ _ _ _ hle2, h2]
        · have hne : userID ≠ k := fun e => hk e.symm
          rw [getRemainingRequests_limits_other _ _ _ _ hne, h2]
      | getResetTime k now =>
        show validRequests now2 w ((rl.GetResetTime k now).2.limits userID)
          = validRequests now2 w (past ++ [])
        rw [List.append_nil, getResetTime_snd, h2]
    · intro s2
      cases c with
      | isAllowed k now =>
        by_cases hk : k = userID
        · subst hk
          rw [admission_isAllowed_self, hw, hq]
          have hc2 : validRequests now w (rl.limits k) = validRequests now w past := hc
          by_cases hlt : ((validRequests now w (rl.limits k)).length : Int) < q
          · rw [if_pos hlt, inSpan_append, List.length_append]
            by_cases hs : s2 < now
            · rw [inSpan_singleton_of_lt _ _ _ hs]
              simpa using hb s2
            · have h1 := inSpan_length_le_validRequests s2 now w past (not_lt.1 hs)
              have h3 := inSpan_singleton_length_le s2 w now
              rw [hc2] at hlt
              push_cast
              omega
          · rw [if_neg hlt, List.append_nil]
            exact hb s2
        · rw [admission_isAllowed_other _ _ _ _ hk, List.append_nil]
          exact hb s2
      | getRemainingRequests k now =>
        show ((inSpan s2 w (past ++ [])).length : Int) ≤ q
        rw [List.append_nil]
        exact hb s2
      | getResetTime k now =>
        show ((inSpan s2 w (past ++ [])).length : Int) ≤ q
        rw [List.append_nil]
        exact hb s2

/-! ## A burst of calls inside one window -/

theorem validRequests_eq_self_of_forall (now : Time) (window : Duration) (h : List Time)
    (hall : ∀ t ∈ h, now - t < window) : validRequests now window h = h := by
  rw [validRequests_eq_filter]
  apply List.filter_eq_self.2
  intro t ht
  simpa using hall t ht

/-- In a non-decreasing list whose last element is less than `w` after its
first, any two elements are less than `w` apart. -/
theorem span_of_sorted (w : Duration) (ts : List Time) (hs : ts.Pairwise (· ≤ ·))
    (hspan : ∀ t1 ∈ ts.head?, ∀ tl ∈ ts.getLast?, tl - t1 < w) :
    ∀ a ∈ ts, ∀ b ∈ ts, b - a < w := by
  intro a ha b hb
  cases ts with
  | nil => cases ha
  | cons t1 rest =>
    obtain ⟨ys, tl, hys⟩ : ∃ ys tl, t1 :: rest = ys ++ [tl] := by
      rcases List.eq_nil_or_concat (t1 :: rest) with h | ⟨L, b, h⟩
      · cases h
      · exact ⟨L, b, by simpa using h⟩
    have h1 : t1 ≤ a := by
      rcases List.mem_cons.1 ha with h | h
      · exact le_of_eq h.symm
      · exact (List.pairwise_cons.1 hs).1 _ h
    have h2 : b ≤ tl := by
      rw [hys] at hs hb
      rcases List.mem_append.1 hb with h | h
      · exact (List.pairwise_append.1 hs).2.2 _ h _ (List.mem_singleton_self _)
      · exact le_of_eq (List.mem_singleton.1 h)
    have h3 : tl - t1 < w :=
      hspan t1 (by simp) tl (by rw [hys]; simp)
    linarith

/-- A burst started with `q + 1 - len(ts)` valid timestamps on record: all calls
but the last are admitted, the last is rejected. -/
theorem allowedResults_burst (userID : String) (q : Nat) (w : Duration) :
    ∀ (ts : List Time) (rl : RateLimiter),
      rl.maxReq = (q : Int) → rl.window = w → ts ≠ [] →
      (rl.limits userID).length + ts.length = q + 1 →
      (∀ t ∈ rl.limits userID, ∀ now ∈ ts, now - t < w) →
      (∀ a ∈ ts, ∀ b ∈ ts, b - a < w) →
      allowedResults userID rl ts = List.replicate (ts.length - 1) true ++ [false] := by
  intro ts
  induction ts with
  | nil => intro rl _ _ hne; exact absurd rfl hne
  | cons now rest ih =>
    intro rl hq hw _ hlen hvalid hspan
    have hkeep : validRequests now rl.window (rl.limits userID) = rl.limits userID := by
      rw [hw]
      exact validRequests_eq_self_of_forall _ _ _
        (fun t ht => hvalid t ht now (List.mem_cons_self _ _))
    cases rest with
    | nil =>
      have hres : (rl.IsAllowed userID now).1 = false := by
        rw [isAllowed_fst, hkeep, hq]
        simp only [List.length_singleton] at hlen
        have : ¬ (((rl.limits userID).length : Int) < (q : Int)) := by omega
        simp [this]
      simp [allowedResults, hres]
    | cons now2 rest2 =>
      have hlt : ((rl.limits userID).length : Int) < rl.maxReq := by
        rw [hq]
        simp only [List.length_cons] at hlen
        omega
      have hres : (rl.IsAllowed userID now).1 = true := by
        rw [isAllowed_fst, hkeep]
        simp [hlt]
      have hhist : (rl.IsAllowed userID now).2.limits userID = rl.limits userID ++ [now] := by
        rw [isAllowed_limits_self, hkeep, if_pos hlt]
      have htail := ih (rl.IsAllowed userID now).2
        (by rw [isAllowed_maxReq, hq]) (by rw [isAllowed_window, hw]) (by simp)
        (by rw [hhist]; simp only [List.length_append, List.length_cons, List.length_nil] at *
            omega)
        (by
          intro t ht n hn
          rw [hhist] at ht
          rcases List.mem_append.1 ht with h | h
          · exact hvalid t h n (List.mem_cons_of_mem _ hn)
          · rw [List.mem_singleton.1 h]
            exact hspan now (List.mem_cons_self _ _) n (List.mem_cons_of_mem _ hn))
        (fun a ha b hb => hspan a (List.mem_cons_of_mem _ ha) b (List.mem_cons_of_mem _ hb))
      rw [allowedResults, hres, htail]
      simp [List.replicate_succ]

/-! ## Reachable states -/

theorem stepCall_length_le (rl : RateLimiter) (c : Call) (k : String) (b : Int)
    (hb : rl.maxReq ≤ b) (h : ((rl.limits k).length : Int) ≤ b) :
    (((stepCall rl c).limits k).length : Int) ≤ b := by
  have hprune : ∀ now, ((validRequests now rl.window (rl.limits k)).length : Int) ≤ b := by
    intro now
    have := validRequests_length_le now rl.window (rl.limits k)
    omega
  cases c with
  | isAllowed k2 now =>
    show (((rl.IsAllowed k2 now).2.limits k).length : Int) ≤ b
    by_cases hk : k = k2
    · subst hk
      rw [isAllowed_limits_self]
      by_cases hlt : ((validRequests now rl.window (rl.limits k)).length : Int) < rl.maxReq
      · rw [if_pos hlt, List.length_append, List.length_singleton]
        push_cast
        omega
      · rw [if_neg hlt]
        exact hprune now
    · rw [isAllowed_limits_other _ _ _ _ hk]
      exact h
  | getRemainingRequests k2 now =>
    show (((rl.GetRemainingRequests k2 now).2.limits k).length : Int) ≤ b
    by_cases hk : k = k2
    · subst hk
      rw [getRemainingRequests_limits_self]
      exact hprune now
    · rw [getRemainingRequests_limits_other _ _ _ _ hk]
      exact h
  | getResetTime k2 now =>
    show (((rl.GetResetTime k2 now).2.limits k).length : Int) ≤ b
    rw [getResetTime_snd]
    exact h

/-- A reachable limiter keeps its settings and never records more than
`max q 0` timestamps for a key. -/
theorem reachable_inv (q : Int) (w : Duration) (rl : RateLimiter) (hr : Reachable q w rl) :
    rl.maxReq = q ∧ rl.window = w ∧ ∀ k, ((rl.limits k).length : Int) ≤ max q 0 := by
  induction hr with
  | init => exact ⟨rfl, rfl, fun _ => by simp [NewRateLimiter]⟩
  | step rl c _ ih =>
    obtain ⟨hq, hw, hlen⟩ := ih
    refine ⟨by rw [stepCall_maxReq, hq], by rw [stepCall_window, hw], fun k => ?_⟩
    exact stepCall_length_le rl c k (max q 0) (by rw [hq]; exact le_max_left _ _) (hlen k)

theorem reachable_foldl (q : Int) (w : Duration) (cs : List Call) :
    ∀ rl, Reachable q w rl → Reachable q w (cs.foldl stepCall rl) := by
  induction cs with
  | nil => intro rl h; exact h
  | cons c cs ih => intro rl h; exact ih _ (Reachable.step rl c h)

/-- Every sequence of calls on a fresh limiter ends in a reachable state. -/
theorem reachable_runCalls (q : Int) (w : Duration) (cs : List Call) :
    Reachable q w (runCalls (NewRateLimiter q w) cs) :=
  reachable_foldl q w cs _ Reachable.init

/-- A call of `IsAllowed` that is rejected in a reachable state prunes nothing. -/
theorem reachable_rejected_keeps (q : Int) (w : Duration) (rl : RateLimiter)
    (hr : Reachable q w rl) (userID : String) (now : Time)
    (hrej : (rl.IsAllowed userID now).1 = false) :
    validRequests now rl.window (rl.limits userID) = rl.limits userID := by
  obtain ⟨hq, _, hlen⟩ := reachable_inv q w rl hr
  rw [isAllowed_fst] at hrej
  have hge : ¬ (((validRequests now rl.window (rl.limits userID)).length : Int) < rl.maxReq) := by
    simpa using hrej
  have hle := validRequests_length_le now rl.window (rl.limits userID)
  have h1 := hlen userID
  apply validRequests_eq_self_of_length
  rcases le_total q 0 with h0 | h0
  · rw [max_eq_right h0] at h1
    omega
  · rw [max_eq_left h0] at h1
    omega

/-- C1. `IsAllowed` at instant `now`: with `kept` the key's recorded timestamps
`t` such that `now - t < window`, in stored order, the call returns true and
the history becomes `kept ++ [now]` when `len(kept) < quota`, and otherwise it
returns false and the history is `kept` (`now` is not recorded). -/
theorem C1_isAllowed_contract (rl : RateLimiter) (userID : String) (now : Time) :
    (rl.IsAllowed userID now).1
        = decide ((((rl.limits userID).filter
            (fun t => decide (now - t < rl.window))).length : Int) < rl.maxReq) ∧
    (rl.IsAllowed userID now).2.limits userID
        = if (((rl.limits userID).filter
            (fun t => decide (now - t < rl.window))).length : Int) < rl.maxReq
          then (rl.limits userID).filter (fun t => decide (now - t < rl.window)) ++ [now]
          else (rl.limits userID).filter (fun t => decide (now - t < rl.window)) := by
  have h1 := isAllowed_fst rl userID now
  have h2 := isAllowed_limits_self rl userID now
  rw [validRequests_eq_filter] at h1 h2
  exact ⟨h1, h2⟩

/-- C2. Sliding-window bound on sequential traces: on a limiter built by
`NewRateLimiter(q, w)` with `q ≥ 1` and `w > 0`, along every sequence of calls
issued at non-decreasing instants, for every key and every instant `s`, at most
`q` calls of `IsAllowed` for that key returned true at an instant `t` with
`s - w < t ≤ s`. -/
theorem C2_sliding_window_bound (q : Int) (w : Duration) (hq : 1 ≤ q) (_hw : 0 < w)
    (cs : List Call) (hmono : (cs.map Call.instant).Pairwise (· ≤ ·))
    (userID : String) (s : Time) :
    (((admissions userID (NewRateLimiter q w) cs).filter
        (fun t => decide (s - w < t ∧ t ≤ s))).length : Int) ≤ q := by
  have h := window_bound_aux userID q w cs (NewRateLimiter q w) [] rfl rfl hmono
    (fun _ _ => rfl) (fun _ => by simp [inSpan]; omega) s
  simpa [inSpan] using h

/-- C2, on a trace of four calls with quota 1 and window 10: the admissions of
the key are the instants 0 and 12, and the span ending at 12 holds one. -/
theorem C2_sliding_window_bound_witness :
    admissions "u" (NewRateLimiter 1 10)
        [.isAllowed "u" 0, .isAllowed "u" 5, .getRemainingRequests "u" 7, .isAllowed "u" 12]
      = [0, 12] ∧
    (((admissions "u" (NewRateLimiter 1 10)
        [.isAllowed "u" 0, .isAllowed "u" 5, .getRemainingRequests "u" 7,
          .isAllowed "u" 12]).filter
        (fun t => decide ((12 : Int) - 10 < t ∧ t ≤ 12))).length : Int) ≤ 1 :=
  ⟨by decide,
   C2_sliding_window_bound 1 10 (by decide) (by decide)
    [.isAllowed "u" 0, .isAllowed "u" 5, .getRemainingRequests "u" 7, .isAllowed "u" 12]
    (by decide) "u" 12⟩

/-- C3. With quota `q ≥ 1`, window `w > 0`, a key without recorded history and
non-decreasing instants `t1 ≤ ... ≤ t(q+1)` such that `t(q+1) - t1 < w`:
`IsAllowed(key)` returns true at each of `t1 .. tq` and false at `t(q+1)`. -/
theorem C3_burst_admits_exactly_quota (rl : RateLimiter) (userID : String) (q : Nat)
    (ts : List Time) (hq : 1 ≤ q) (hmax : rl.maxReq = (q : Int)) (_hw : 0 < rl.window)
    (hempty : rl.limits userID = []) (hlen : ts.length = q + 1)
    (hsorted : ts.Pairwise (· ≤ ·))
    (hspan : ∀ t1 ∈ ts.head?, ∀ tl ∈ ts.getLast?, tl - t1 < rl.window) :
    allowedResults userID rl ts = List.replicate q true ++ [false] := by
  have hne : ts ≠ [] := by
    intro h
    rw [h] at hlen
    simp at hlen
  have h := allowedResults_burst userID q rl.window ts rl hmax rfl hne
    (by rw [hempty]; simpa using hlen)
    (by rw [hempty]; intro t ht; cases ht)
    (span_of_sorted rl.window ts hsorted hspan)
  rw [h, hlen]
  have : 1 ≤ q := hq
  simp

/-- C3 at the case of the test: quota 2, window one second, three calls within
the second. -/
theorem C3_burst_admits_exactly_quota_witness :
    allowedResults "test_user" (NewRateLimiter 2 1000000000) [0, 10, 999999999]
      = List.replicate 2 true ++ [false] :=
  C3_burst_admits_exactly_quota (NewRateLimiter 2 1000000000) "test_user" 2
    [0, 10, 999999999] (by decide) rfl (by decide) rfl rfl (by decide) (by decide)

/-- C4. Rejection costs no quota: in every state reachable from `NewRateLimiter`,
when `IsAllowed(key)` at `now` returns false the history of the key after the
call is the history before it, and `GetRemainingRequests(key)` at `now` returns
after the call what it would have returned before it. -/
theorem C4_rejection_costs_no_quota (q : Int) (w : Duration) (rl : RateLimiter)
    (hr : Reachable q w rl) (userID : String) (now : Time)
    (hrej : (rl.IsAllowed userID now).1 = false) :
    (rl.IsAllowed userID now).2.limits userID = rl.limits userID ∧
    ((rl.IsAllowed userID now).2.GetRemainingRequests userID now).1
      = (rl.GetRemainingRequests userID now).1 := by
  have hkeep := reachable_rejected_keeps q w rl hr userID now hrej
  have hrej2 := hrej
  rw [isAllowed_fst] at hrej2
  have hge : ¬ (((validRequests now rl.window (rl.limits userID)).length : Int) < rl.maxReq) := by
    simpa using hrej2
  have hsame : (rl.IsAllowed userID now).2.limits userID = rl.limits userID := by
    rw [isAllowed_limits_self, if_neg hge, hkeep]
  refine ⟨hsame, ?_⟩
  rw [getRemainingRequests_fst, getRemainingRequests_fst, isAllowed_maxReq, isAllowed_window,
    hsame]

/-- C4 on the limiter of quota 1 and window 10 that admitted the key at 0: the
call at 5 is rejected. -/
theorem C4_rejection_costs_no_quota_witness :
    ((stepCall (NewRateLimiter 1 10) (.isAllowed "u" 0)).IsAllowed "u" 5).1 = false ∧
    ((stepCall (NewRateLimiter 1 10) (.isAllowed "u" 0)).IsAllowed "u" 5).2.limits "u"
      = (stepCall (NewRateLimiter 1 10) (.isAllowed "u" 0)).limits "u" ∧
    (((stepCall (NewRateLimiter 1 10) (.isAllowed "u" 0)).IsAllowed "u" 5).2.GetRemainingRequests
        "u" 5).1
      = ((stepCall (NewRateLimiter 1 10) (.isAllowed "u" 0)).GetRemainingRequests "u" 5).1 :=
  ⟨by decide,
   C4_rejection_costs_no_quota 1 10 (stepCall (NewRateLimiter 1 10) (.isAllowed "u" 0))
    (Reachable.step _ _ Reachable.init) "u" 5 (by decide)⟩

/-- C5. Window slides: with quota `q ≥ 1`, a key whose history holds exactly `q`
timestamps stored oldest-first, and `now - history[0] > window`,
`IsAllowed(key)` at `now` returns true. -/
theorem C5_window_slides (rl : RateLimiter) (userID : String) (now : Time)
    (hq : 1 ≤ rl.maxReq) (hlen : ((rl.limits userID).length : Int) = rl.maxReq)
    (_hsorted : (rl.limits userID).Pairwise (· ≤ ·))
    (hold : ∀ oldest ∈ (rl.limits userID).head?, now - oldest > rl.window) :
    (rl.IsAllowed userID now).1 = true := by
  rw [isAllowed_fst]
  cases hh : rl.limits userID with
  | nil =>
    rw [hh] at hlen
    simp at hlen
    omega
  | cons oldest rest =>
    rw [hh] at hlen hold
    have ho : ¬ (now - oldest < rl.window) := not_lt.2 (le_of_lt (hold oldest (by simp)))
    have hle := validRequests_length_le now rl.window rest
    simp only [validRequests, ho, if_false, decide_eq_true_eq]
    simp only [List.length_cons] at hlen
    push_cast at hlen
    omega

/-- C5 with quota 2, window 10 and the timestamps 0 and 8 on record: the call
at 11 is admitted. -/
theorem C5_window_slides_witness :
    ((setLimit (NewRateLimiter 2 10) "u" [0, 8]).IsAllowed "u" 11).1 = true :=
  C5_window_slides (setLimit (NewRateLimiter 2 10) "u" [0, 8]) "u" 11
    (by decide) (by decide) (by decide) (by decide)

/-- C6. In every state reachable from `NewRateLimiter(q, w)` with `q ≥ 1`,
`GetRemainingRequests(key)` at `now` returns `q` minus the number of the key's
recorded timestamps `t` with `now - t < w`; the result is at least 0 and at most
`q`; and the history of the key afterwards is the pruned history, with no new
timestamp. -/
theorem C6_remaining_requests (q : Int) (w : Duration) (hq : 1 ≤ q) (rl : RateLimiter)
    (hr : Reachable q w rl) (userID : String) (now : Time) :
    (rl.GetRemainingRequests userID now).1
      = q - (((rl.limits userID).filter (fun t => decide (now - t < w))).length : Int) ∧
    0 ≤ (rl.GetRemainingRequests userID now).1 ∧
    (rl.GetRemainingRequests userID now).1 ≤ q ∧
    (rl.GetRemainingRequests userID now).2.limits userID
      = (rl.limits userID).filter (fun t => decide (now - t < w)) := by
  obtain ⟨hmax, hwin, hlen⟩ := reachable_inv q w rl hr
  have hle := validRequests_length_le now rl.window (rl.limits userID)
  have h1 := hlen userID
  rw [max_eq_left (by omega : (0 : Int) ≤ q)] at h1
  rw [getRemainingRequests_fst, getRemainingRequests_limits_self, hmax, hwin] at *
  rw [validRequests_eq_filter] at *
  refine ⟨rfl, ?_, ?_, rfl⟩
  · omega
  · omega

/-- C6 on the limiter of quota 2 and window 10 that admitted the key at 0 and at
4: at 12 one request remains and the history is `[4]`. -/
theorem C6_remaining_requests_witness :
    ((runCalls (NewRateLimiter 2 10)
        [.isAllowed "u" 0, .isAllowed "u" 4]).GetRemainingRequests "u" 12).1 = 1 ∧
    ((runCalls (NewRateLimiter 2 10)
        [.isAllowed "u" 0, .isAllowed "u" 4]).GetRemainingRequests "u" 12).2.limits "u" = [4] ∧
    0 ≤ ((runCalls (NewRateLimiter 2 10)
        [.isAllowed "u" 0, .isAllowed "u" 4]).GetRemainingRequests "u" 12).1 :=
  ⟨by decide, by decide,
   (C6_remaining_requests 2 10 (by decide)
      (runCalls (NewRateLimiter 2 10) [.isAllowed "u" 0, .isAllowed "u" 4])
      (reachable_runCalls 2 10 _) "u" 12).2.1⟩

/-- C7. `GetResetTime(key)` returns `now` when the key has no recorded
timestamp and `history[key][0] + window` otherwise, and leaves the state of the
limiter as it was. -/
theorem C7_reset_time (rl : RateLimiter) (userID : String) (now : Time) :
    (rl.GetResetTime userID now).1
      = ((rl.limits userID).head?.map (fun oldest => oldest + rl.window)).getD now ∧
    (rl.GetResetTime userID now).2 = rl := by
  refine ⟨?_, getResetTime_snd rl userID now⟩
  unfold RateLimiter.GetResetTime
  cases rl.limits userID <;> rfl

end security

namespace music

/-! ## The playback session -/

theorem addAll_eq (ts : List (Option Track)) :
    ∀ p : Player, addAll p ts = { p with Queue := p.Queue ++ ts } := by
  induction ts with
  | nil => intro p; simp [addAll]
  | cons t ts ih =>
    intro p
    have h : addAll p (t :: ts) = addAll (p.AddToQueue t) ts := rfl
    rw [h, ih]
    simp [Player.AddToQueue]

theorem skip_cons (p : Player) (head : Option Track) (rest : List (Option Track))
    (h : p.Queue = head :: rest) :
    p.Skip = ({ p with Current := head, Queue := rest }, none) := by
  unfold Player.Skip
  rw [h]

theorem skip_nil (p : Player) (h : p.Queue = []) :
    p.Skip = ({ p with Playing := false, Current := none }, some "queue is empty") := by
  unfold Player.Skip
  rw [h]

theorem skips_succ_last (k : Nat) : ∀ p : Player, skips (k + 1) p = (skips k p).Skip.1 := by
  induction k with
  | zero => intro p; rfl
  | succ k ih =>
    intro p
    have h : skips (k + 1 + 1) p = skips (k + 1) p.Skip.1 := rfl
    rw [h, ih]
    rfl

/-- After `k` skips on a queue of at least `k` tracks: the queue lost its first
`k` tracks, the flag kept its value, and (for `k ≥ 1`) the current track is the
`k`-th of the old queue. -/
theorem skips_state (k : Nat) :
    ∀ p : Player, k ≤ p.Queue.length →
      (skips k p).Queue = p.Queue.drop k ∧
      (skips k p).Playing = p.Playing ∧
      (1 ≤ k → p.Queue[k - 1]? = some (skips k p).Current) := by
  induction k with
  | zero =>
    intro p _
    exact ⟨rfl, rfl, fun h => absurd h (by decide)⟩
  | succ k ih =>
    intro p hk
    cases hq : p.Queue with
    | nil => rw [hq] at hk; simp at hk
    | cons head rest =>
      have hstep : skips (k + 1) p = skips k { p with Current := head, Queue := rest } := by
        show skips k p.Skip.1 = _
        rw [skip_cons p head rest hq]
      rw [hq] at hk
      have hk2 : k ≤ rest.length := by simpa using hk
      obtain ⟨h1, h2, h3⟩ := ih { p with Current := head, Queue := rest } hk2
      rw [hstep]
      refine ⟨by simpa using h1, h2, fun _ => ?_⟩
      cases k with
      | zero => simp [skips]
      | succ j =>
        have := h3 (by omega)
        simpa using this

/-- C8. `Play` on every session state: when `playing` is true and a current
track is set it returns no error and changes nothing; otherwise, when the queue
is not empty, it returns no error, `current` becomes the old head of the queue,
the queue loses its head, `playing` becomes true, volume and connection stay;
otherwise it returns the queue-empty error and changes nothing. -/
theorem C8_play_contract (p : Player) :
    (p.Playing = true ∧ p.Current ≠ none → p.Play = (p, none)) ∧
    (¬ (p.Playing = true ∧ p.Current ≠ none) →
      ∀ head rest, p.Queue = head :: rest →
        p.Play.2 = none ∧ p.Play.1.Current = head ∧ p.Play.1.Queue = rest ∧
        p.Play.1.Playing = true ∧ p.Play.1.volume = p.volume ∧
        p.Play.1.voiceConn = p.voiceConn) ∧
    (¬ (p.Playing = true ∧ p.Current ≠ none) → p.Queue = [] →
      p.Play = (p, some "queue is empty")) := by
  have hcond : (p.Playing && p.Current.isSome) = true ↔ (p.Playing = true ∧ p.Current ≠ none) := by
    cases p.Playing <;> cases p.Current <;> simp
  refine ⟨fun h => ?_, fun h head rest hq => ?_, fun h hq => ?_⟩
  · unfold Player.Play
    rw [if_pos (hcond.2 h)]
  · have hplay : p.Play = ({ p with Current := head, Queue := rest, Playing := true }, none) := by
      unfold Player.Play
      rw [if_neg (fun c => h (hcond.1 c)), hq]
    rw [hplay]
    exact ⟨rfl, rfl, rfl, rfl, rfl, rfl⟩
  · unfold Player.Play
    rw [if_neg (fun c => h (hcond.1 c)), hq]

/-- C8 in its three cases: a session that plays `track1` with `track2` queued,
a fresh session with `track1` queued, and a fresh session. -/
theorem C8_play_contract_witness :
    playingSession.Play = (playingSession, none) ∧
    ((NewPlayer.AddToQueue (some track1)).Play.2 = none ∧
      (NewPlayer.AddToQueue (some track1)).Play.1.Current = some track1 ∧
      (NewPlayer.AddToQueue (some track1)).Play.1.Queue = [] ∧
      (NewPlayer.AddToQueue (some track1)).Play.1.Playing = true ∧
      (NewPlayer.AddToQueue (some track1)).Play.1.volume = NewPlayer.volume ∧
      (NewPlayer.AddToQueue (some track1)).Play.1.voiceConn = NewPlayer.voiceConn) ∧
    NewPlayer.Play = (NewPlayer, some "queue is empty") ∧
    NewPlayer.Play.1.Playing = false ∧ NewPlayer.Play.1.Current = none :=
  ⟨(C8_play_contract playingSession).1 (by decide),
   (C8_play_contract (NewPlayer.AddToQueue (some track1))).2.1 (by decide)
      (some track1) [] rfl,
   (C8_play_contract NewPlayer).2.2 (by decide) rfl, by decide, by decide⟩

/-- C9. `Skip` on every session state: with a non-empty queue it returns no
error, `current` becomes the old head of the queue, the queue loses its head and
`playing` keeps its value; with an empty queue it returns the queue-empty error,
`current` becomes absent and `playing` false. Volume and connection stay in both
cases. -/
theorem C9_skip_contract (p : Player) :
    (∀ head rest, p.Queue = head :: rest →
      p.Skip.2 = none ∧ p.Skip.1.Current = head ∧ p.Skip.1.Queue = rest ∧
      p.Skip.1.Playing = p.Playing ∧ p.Skip.1.volume = p.volume ∧
      p.Skip.1.voiceConn = p.voiceConn) ∧
    (p.Queue = [] →
      p.Skip.2 = some "queue is empty" ∧ p.Skip.1.Current = none ∧
      p.Skip.1.Playing = false ∧ p.Skip.1.Queue = [] ∧ p.Skip.1.volume = p.volume ∧
      p.Skip.1.voiceConn = p.voiceConn) := by
  refine ⟨fun head rest hq => ?_, fun hq => ?_⟩
  · rw [skip_cons p head rest hq]
    exact ⟨rfl, rfl, rfl, rfl, rfl, rfl⟩
  · rw [skip_nil p hq]
    exact ⟨rfl, rfl, rfl, hq, rfl, rfl⟩

/-- C9 in its two cases: a paused session on `track1` with `track2` queued, and a
session that plays `track1` with nothing queued. -/
theorem C9_skip_contract_witness :
    (pausedSession.Skip.2 = none ∧ pausedSession.Skip.1.Current = some track2 ∧
      pausedSession.Skip.1.Queue = [] ∧ pausedSession.Skip.1.Playing = pausedSession.Playing ∧
      pausedSession.Skip.1.volume = pausedSession.volume ∧
      pausedSession.Skip.1.voiceConn = pausedSession.voiceConn) ∧
    (lastTrackSession.Skip.2 = some "queue is empty" ∧
      lastTrackSession.Skip.1.Current = none ∧ lastTrackSession.Skip.1.Playing = false ∧
      lastTrackSession.Skip.1.Queue = [] ∧
      lastTrackSession.Skip.1.volume = lastTrackSession.volume ∧
      lastTrackSession.Skip.1.voiceConn = lastTrackSession.voiceConn) :=
  ⟨(C9_skip_contract pausedSession).1 (some track2) [] rfl,
   (C9_skip_contract lastTrackSession).2 rfl⟩

/-- C10. FIFO order: after `AddToQueue` of `t1 .. tn` (`n ≥ 1`) on a fresh
session, `GetQueue` returns `[t1 .. tn]`; `Play` then succeeds with
`current = t1`, `queue = [t2 .. tn]` and `playing = true`; the `k`-th following
`Skip`, for `1 ≤ k < n`, succeeds with `current = t(k+1)` and
`queue = [t(k+2) .. tn]`; and the `n`-th `Skip` returns the queue-empty error
with `current` absent and `playing = false`. The list `t1 :: rest` is
`[t1 .. tn]`, so that `n = rest.length + 1`. -/
theorem C10_fifo_order (t1 : Option Track) (rest : List (Option Track)) :
    (addAll NewPlayer (t1 :: rest)).GetQueue = t1 :: rest ∧
    (addAll NewPlayer (t1 :: rest)).Play.2 = none ∧
    (addAll NewPlayer (t1 :: rest)).Play.1.Current = t1 ∧
    (addAll NewPlayer (t1 :: rest)).Play.1.Queue = rest ∧
    (addAll NewPlayer (t1 :: rest)).Play.1.Playing = true ∧
    (∀ k, 1 ≤ k → k < rest.length + 1 →
      (skips (k - 1) (addAll NewPlayer (t1 :: rest)).Play.1).Skip.2 = none ∧
      (t1 :: rest)[k]?
        = some (skips (k - 1) (addAll NewPlayer (t1 :: rest)).Play.1).Skip.1.Current ∧
      (skips (k - 1) (addAll NewPlayer (t1 :: rest)).Play.1).Skip.1.Queue
        = (t1 :: rest).drop (k + 1)) ∧
    (skips rest.length (addAll NewPlayer (t1 :: rest)).Play.1).Skip.2
      = some "queue is empty" ∧
    (skips rest.length (addAll NewPlayer (t1 :: rest)).Play.1).Skip.1.Current = none ∧
    (skips rest.length (addAll NewPlayer (t1 :: rest)).Play.1).Skip.1.Playing = false := by
  have hadd : addAll NewPlayer (t1 :: rest) = { NewPlayer with Queue := t1 :: rest } := by
    rw [addAll_eq]
    rfl
  have hplay : (addAll NewPlayer (t1 :: rest)).Play
      = ({ NewPlayer with Current := t1, Queue := rest, Playing := true }, none) := by
    rw [hadd]
    rfl
  rw [hplay]
  refine ⟨by rw [hadd]; rfl, rfl, rfl, rfl, rfl, ?_, ?_⟩
  · intro k hk1 hkn
    obtain ⟨j, rfl⟩ : ∃ j, k = j + 1 := ⟨k - 1, by omega⟩
    have hj : j < rest.length := by omega
    obtain ⟨h1, _, _⟩ := skips_state j
      { NewPlayer with Current := t1, Queue := rest, Playing := true } (le_of_lt hj)
    obtain ⟨g1, _, g3⟩ := skips_state (j + 1)
      { NewPlayer with Current := t1, Queue := rest, Playing := true } hj
    have hdrop : rest.drop j = rest[j] :: rest.drop (j + 1) := List.drop_eq_getElem_cons hj
    have hsk := skip_cons _ rest[j] (rest.drop (j + 1)) (h1.trans hdrop)
    rw [skips_succ_last] at g1 g3
    simp only [Nat.add_sub_cancel]
    refine ⟨by rw [hsk], ?_, ?_⟩
    · have := g3 (by omega)
      simpa using this
    · simpa using g1
  · obtain ⟨h1, _, _⟩ := skips_state rest.length
      { NewPlayer with Current := t1, Queue := rest, Playing := true } (le_refl _)
    have hnil : (skips rest.length
        { NewPlayer with Current := t1, Queue := rest, Playing := true }).Queue = [] := by
      rw [h1]
      exact List.drop_length rest
    rw [skip_nil _ hnil]
    exact ⟨rfl, rfl, rfl⟩

/-- C10 at the case of the specification: the tracks A and B. -/
theorem C10_fifo_order_witness :
    (addAll NewPlayer [some track1, some track2]).GetQueue = [some track1, some track2] ∧
    (addAll NewPlayer [some track1, some track2]).Play.1.Current = some track1 ∧
    (addAll NewPlayer [some track1, some track2]).Play.1.Queue = [some track2] ∧
    (skips 0 (addAll NewPlayer [some track1, some track2]).Play.1).Skip.1.Current
      = some track2 ∧
    (skips 0 (addAll NewPlayer [some track1, some track2]).Play.1).Skip.1.Queue = [] ∧
    (skips 1 (addAll NewPlayer [some track1, some track2]).Play.1).Skip.2
      = some "queue is empty" ∧
    (skips 1 (addAll NewPlayer [some track1, some track2]).Play.1).Skip.1.Current = none ∧
    (skips 1 (addAll NewPlayer [some track1, some track2]).Play.1).Skip.1.Playing = false :=
  ⟨(C10_fifo_order (some track1) [some track2]).1,
   (C10_fifo_order (some track1) [some track2]).2.2.1,
   (C10_fifo_order (some track1) [some track2]).2.2.2.1,
   by decide, by decide,
   (C10_fifo_order (some track1) [some track2]).2.2.2.2.2.2.1,
   (C10_fifo_order (some track1) [some track2]).2.2.2.2.2.2.2.1,
   (C10_fifo_order (some track1) [some track2]).2.2.2.2.2.2.2.2⟩

/-! ## Play on a paused session -/

/-- `Play` returns an error exactly when the queue is empty and the session is
not playing a current track. -/
theorem play_error_iff (p : Player) :
    p.Play.2 ≠ none ↔ (p.Queue = [] ∧ ¬ (p.Playing = true ∧ p.Current ≠ none)) := by
  unfold Player.Play
  cases hp : p.Playing <;> cases hc : p.Current <;> cases hq : p.Queue <;> simp

/-- `Resume` on a paused session: playing, with the same current track and the
same queue. -/
theorem resume_paused (p : Player) (t : Track) (hc : p.Current = some t) :
    p.Resume.Playing = true ∧ p.Resume.Current = some t ∧ p.Resume.Queue = p.Queue := by
  simp [Player.Resume, hc]

/-- C11, as stated, fails. On a paused session with an empty queue `Play`
returns the queue-empty error and the session stays paused; on a paused session
whose queue holds one nil pointer `Play` returns no error but loads the nil
pointer, so that no current track is set. -/
theorem C11_counterexample :
    (pausedLastSession.Current ≠ none ∧ pausedLastSession.Playing = false ∧
      pausedLastSession.Play = (pausedLastSession, some "queue is empty") ∧
      ¬ (pausedLastSession.Play.2 = none ∧ pausedLastSession.Play.1.Current ≠ none ∧
          pausedLastSession.Play.1.Playing = true)) ∧
    (pausedNilHeadSession.Current ≠ none ∧ pausedNilHeadSession.Playing = false ∧
      pausedNilHeadSession.Play.2 = none ∧ pausedNilHeadSession.Play.1.Current = none ∧
      ¬ (pausedNilHeadSession.Play.2 = none ∧ pausedNilHeadSession.Play.1.Current ≠ none ∧
          pausedNilHeadSession.Play.1.Playing = true)) := by
  decide

/-- C11, amended. For every session state in which a current track is set and
`playing` is false (paused), whatever the queue holds: `Resume` yields the
playing state, with the same current track and the same queue; `Play` on a
non-empty queue returns no error, sets `playing` and makes the old head of the
queue the current track, so that the state is playing when that head is a
non-nil track; `Play` on an empty queue returns the queue-empty error and
leaves the session as it was, paused. -/
theorem C11_paused_to_playing (p : Player) (hcur : p.Current ≠ none)
    (hpaused : p.Playing = false) :
    (p.Resume.Playing = true ∧ p.Resume.Current = p.Current ∧ p.Resume.Current ≠ none ∧
      p.Resume.Queue = p.Queue) ∧
    (∀ head rest, p.Queue = head :: rest →
      p.Play.2 = none ∧ p.Play.1.Playing = true ∧ p.Play.1.Current = head ∧
      p.Play.1.Queue = rest ∧ (head ≠ none → p.Play.1.Current ≠ none)) ∧
    (p.Queue = [] → p.Play = (p, some "queue is empty")) := by
  have hsome : p.Current.isSome = true := by
    cases hc : p.Current with
    | none => exact absurd hc hcur
    | some t => rfl
  have hguard : ¬ ((p.Playing && p.Current.isSome) = true) := by
    rw [hpaused]
    simp
  refine ⟨?_, fun head rest hq => ?_, fun hq => ?_⟩
  · unfold Player.Resume
    rw [if_pos hsome]
    exact ⟨rfl, rfl, hcur, rfl⟩
  · have hplay : p.Play = ({ p with Current := head, Queue := rest, Playing := true }, none) := by
      unfold Player.Play
      rw [if_neg hguard, hq]
    rw [hplay]
    exact ⟨rfl, rfl, rfl, rfl, fun hne => hne⟩
  · unfold Player.Play
    rw [if_neg hguard, hq]

/-- C11, amended, on the paused session on `track1` with `track2` queued and on
the paused session on `track1` with nothing queued. -/
theorem C11_paused_to_playing_witness :
    (pausedSession.Resume.Playing = true ∧ pausedSession.Resume.Current = some track1) ∧
    (pausedSession.Play.2 = none ∧ pausedSession.Play.1.Playing = true ∧
      pausedSession.Play.1.Current = some track2 ∧ pausedSession.Play.1.Queue = [] ∧
      (some track2 ≠ none → pausedSession.Play.1.Current ≠ none)) ∧
    pausedLastSession.Play = (pausedLastSession, some "queue is empty") ∧
    pausedLastSession.Resume.Playing = true :=
  ⟨⟨(C11_paused_to_playing pausedSession (by decide) rfl).1.1,
    (C11_paused_to_playing pausedSession (by decide) rfl).1.2.1⟩,
   (C11_paused_to_playing pausedSession (by decide) rfl).2.1 (some track2) [] rfl,
   (C11_paused_to_playing pausedLastSession (by decide) rfl).2.2 rfl,
   (C11_paused_to_playing pausedLastSession (by decide) rfl).1.1⟩

/-- C12, as stated, fails. On the paused session on `track1` with an empty
queue `Play` returns an error although the current track is not absent. -/
theorem C12_counterexample :
    pausedLastSession.Play.2 = some "queue is empty" ∧
    ¬ (pausedLastSession.Play.2 ≠ none ↔
        (pausedLastSession.Queue = [] ∧ pausedLastSession.Current = none)) := by
  decide

/-- C12, amended. For every session state `Play` returns an error if and only
if the queue is empty and the session is not playing a current track (`playing`
is false or current is absent); the error is the queue-empty error; and it is
returned whenever the queue is empty and current is absent. -/
theorem C12_play_error_condition (p : Player) :
    (p.Play.2 ≠ none ↔ (p.Queue = [] ∧ (p.Playing = false ∨ p.Current = none))) ∧
    (p.Play.2 = none ∨ p.Play.2 = some "queue is empty") ∧
    (p.Queue = [] ∧ p.Current = none → p.Play.2 = some "queue is empty") := by
  unfold Player.Play
  cases hp : p.Playing <;> cases hc : p.Current <;> cases hq : p.Queue <;> simp

/-- C12, amended, on three sessions with an empty queue: paused on `track1`
(error), playing `track1` (no error), fresh (error). -/
theorem C12_play_error_condition_witness :
    pausedLastSession.Play.2 ≠ none ∧ lastTrackSession.Play.2 = none ∧
    NewPlayer.Play.2 = some "queue is empty" :=
  ⟨(C12_play_error_condition pausedLastSession).1.2 (by decide), by decide,
   (C12_play_error_condition NewPlayer).2.2 ⟨rfl, rfl⟩⟩

/-- C13. `Stop` from every session state yields the idle state with an empty
queue: current absent, playing false, queue empty; volume and connection are
unchanged. -/
theorem C13_stop (p : Player) :
    p.Stop.Current = none ∧ p.Stop.Playing = false ∧ p.Stop.Queue = [] ∧
    p.Stop.volume = p.volume ∧ p.Stop.voiceConn = p.voiceConn :=
  ⟨rfl, rfl, rfl, rfl, rfl⟩

/-! ## Volume -/

/-- What `SetVolume` stores, for every value, and what it leaves alone. -/
theorem setVolume_clamp (p : Player) (v : F64) :
    (p.SetVolume v).GetVolume
      = (if F64.lt v (.fin 0) = true then F64.fin 0
         else if F64.lt (.fin 1) v = true then F64.fin 1 else v) ∧
    (p.SetVolume v).Queue = p.Queue ∧ (p.SetVolume v).Current = p.Current ∧
    (p.SetVolume v).Playing = p.Playing ∧ (p.SetVolume v).voiceConn = p.voiceConn :=
  ⟨rfl, rfl, rfl, rfl, rfl⟩

/-- Every value but not-a-number is stored as a value of `[0, 1]`. -/
theorem setVolume_inUnitInterval (p : Player) (v : F64) (hv : v ≠ F64.nan) :
    F64.inUnitInterval (p.SetVolume v).GetVolume := by
  cases v with
  | nan => exact absurd rfl hv
  | negInf => simp [Player.SetVolume, Player.GetVolume, F64.lt, F64.inUnitInterval]
  | posInf => simp [Player.SetVolume, Player.GetVolume, F64.lt, F64.inUnitInterval]
  | fin q =>
    by_cases h0 : q < 0
    · simp [Player.SetVolume, Player.GetVolume, F64.lt, F64.inUnitInterval, h0]
    · by_cases h1 : 1 < q
      · simp [Player.SetVolume, Player.GetVolume, F64.lt, F64.inUnitInterval, h0, h1]
      · simp only [Player.SetVolume, Player.GetVolume, F64.lt, F64.inUnitInterval, h0, h1,
          decide_False, if_false]
        exact ⟨not_lt.1 h0, not_lt.1 h1⟩

/-- The values of the specification and of `TestSetVolume`. -/
theorem setVolume_examples :
    (NewPlayer.SetVolume (.fin (-3 / 10))).GetVolume = .fin 0 ∧
    (NewPlayer.SetVolume (.fin (17 / 10))).GetVolume = .fin 1 ∧
    (NewPlayer.SetVolume (.fin (42 / 100))).GetVolume = .fin (42 / 100) ∧
    (NewPlayer.SetVolume (.fin (1 / 2))).GetVolume = .fin (1 / 2) ∧
    (NewPlayer.SetVolume (.fin (3 / 2))).GetVolume = .fin 1 ∧
    (NewPlayer.SetVolume (.fin (-1 / 2))).GetVolume = .fin 0 := by
  refine ⟨?_, ?_, ?_, ?_, ?_, ?_⟩ <;> norm_num [Player.SetVolume, Player.GetVolume, F64.lt]

/-- C14, as stated, fails. `SetVolume(NaN)` on a fresh session passes both
comparisons, and the state reached stores not-a-number, which is the value the
claim's own rule gives (`v` itself) and is outside `[0, 1]`. -/
theorem C14_counterexample :
    F64.lt .nan (.fin 0) = false ∧ F64.lt (.fin 1) .nan = false ∧
    ∃ p, runOps NewPlayer [.setVolume .nan] = some p ∧ p.GetVolume = .nan ∧
      ¬ F64.inUnitInterval p.volume :=
  ⟨rfl, rfl, NewPlayer.SetVolume .nan, rfl, rfl, fun h => h⟩

/-! ## Removing and moving in the queue -/

/-- Putting `x` back at index `j` of `l`: one element longer. -/
theorem insertAt_length {α : Type} (l : List α) (x : α) (j : Nat) :
    (l.take j ++ ([x] ++ l.drop j)).length = l.length + 1 := by
  simp only [List.length_append, List.length_take, List.length_drop, List.length_singleton]
  omega

theorem insertAt_perm {α : Type} (l : List α) (x : α) (j : Nat) :
    (l.take j ++ ([x] ++ l.drop j)).Perm (x :: l) := by
  have h : (l.take j ++ x :: l.drop j).Perm (x :: (l.take j ++ l.drop j)) := List.perm_middle
  rw [List.take_append_drop] at h
  exact h

theorem insertAt_getElem? {α : Type} (l : List α) (x : α) (j : Nat) (hj : j ≤ l.length) :
    (l.take j ++ ([x] ++ l.drop j))[j]? = some x := by
  have hlen : (l.take j).length = j := by
    rw [List.length_take]
    omega
  rw [List.getElem?_append_right (by omega), hlen]
  simp

theorem insertAt_eraseIdx {α : Type} (l : List α) (x : α) (j : Nat) (hj : j ≤ l.length) :
    (l.take j ++ ([x] ++ l.drop j)).eraseIdx j = l := by
  have hlen : (l.take j).length = j := by
    rw [List.length_take]
    omega
  rw [List.eraseIdx_append_of_length_le (by omega), hlen]
  simp

/-- A list is, up to order, its element at `i` followed by the others. -/
theorem perm_cons_eraseIdx_of_getElem? {α : Type} (l : List α) (x : α) (i : Nat)
    (hx : l[i]? = some x) : l.Perm (x :: l.eraseIdx i) := by
  obtain ⟨hi, hxi⟩ := List.getElem?_eq_some.1 hx
  have hsplit : l = l.take i ++ x :: l.drop (i + 1) := by
    conv_lhs => rw [← List.take_append_drop i l, List.drop_eq_getElem_cons hi, hxi]
  rw [List.eraseIdx_eq_take_drop_succ]
  conv_lhs => rw [hsplit]
  exact List.perm_middle

theorem removeFromQueue_valid (p : Player) (index : Int) (h0 : 0 ≤ index)
    (h1 : index < p.Queue.length) :
    p.RemoveFromQueue index = ({ p with Queue := p.Queue.eraseIdx index.toNat }, none) := by
  have hg : ¬ (index < 0 ∨ index ≥ (p.Queue.length : Int)) := by omega
  unfold Player.RemoveFromQueue
  rw [if_neg hg, List.eraseIdx_eq_take_drop_succ]

theorem removeFromQueue_invalid (p : Player) (index : Int)
    (h : ¬ (0 ≤ index ∧ index < p.Queue.length)) :
    p.RemoveFromQueue index = (p, some "index out of range") := by
  have hg : index < 0 ∨ index ≥ (p.Queue.length : Int) := by omega
  unfold Player.RemoveFromQueue
  rw [if_pos hg]

theorem moveInQueue_invalid (p : Player) (fromIdx toIdx : Int)
    (h : ¬ (0 ≤ fromIdx ∧ fromIdx < p.Queue.length ∧ 0 ≤ toIdx ∧ toIdx < p.Queue.length)) :
    p.MoveInQueue fromIdx toIdx = (p, some "index out of range") := by
  have hg : fromIdx < 0 ∨ fromIdx ≥ (p.Queue.length : Int) ∨ toIdx < 0 ∨
      toIdx ≥ (p.Queue.length : Int) := by omega
  unfold Player.MoveInQueue
  rw [if_pos hg]

theorem moveInQueue_same (p : Player) (idx : Int) (h0 : 0 ≤ idx) (h1 : idx < p.Queue.length) :
    p.MoveInQueue idx idx = (p, none) := by
  have hg : ¬ (idx < 0 ∨ idx ≥ (p.Queue.length : Int) ∨ idx < 0 ∨
      idx ≥ (p.Queue.length : Int)) := by omega
  unfold Player.MoveInQueue
  rw [if_neg hg, if_pos rfl]

/-- `MoveInQueue` with two different indices in range: the track at `fromIdx`
goes back into the queue without it at index `toIdx - 1` when
`toIdx > fromIdx`, at index `toIdx` otherwise. -/
theorem moveInQueue_valid (p : Player) (fromIdx toIdx : Int) (i j : Nat)
    (hf0 : 0 ≤ fromIdx) (hf1 : fromIdx < p.Queue.length)
    (ht0 : 0 ≤ toIdx) (ht1 : toIdx < p.Queue.length) (hne : fromIdx ≠ toIdx)
    (hi : i = fromIdx.toNat) (hj : j = (if toIdx > fromIdx then toIdx - 1 else toIdx).toNat) :
    p.MoveInQueue fromIdx toIdx
      = ({ p with Queue := (p.Queue.eraseIdx i).take j
            ++ ([p.Queue.getD i none] ++ (p.Queue.eraseIdx i).drop j) }, none) := by
  have hg : ¬ (fromIdx < 0 ∨ fromIdx ≥ (p.Queue.length : Int) ∨ toIdx < 0 ∨
      toIdx ≥ (p.Queue.length : Int)) := by omega
  unfold Player.MoveInQueue
  rw [if_neg hg, if_neg hne, List.eraseIdx_eq_take_drop_succ, hi, hj]

/-- The queue after a move between two different indices in range, with `j` the
index `toIdx - 1` when `toIdx > fromIdx` and `toIdx` otherwise: as long as
before, a permutation of the old queue, the moved track at index `j`, and the
old queue without index `fromIdx` once index `j` is deleted. -/
theorem moveInQueue_valid_facts (p : Player) (fromIdx toIdx : Int) (j : Nat)
    (hf0 : 0 ≤ fromIdx) (hf1 : fromIdx < p.Queue.length)
    (ht0 : 0 ≤ toIdx) (ht1 : toIdx < p.Queue.length) (hne : fromIdx ≠ toIdx)
    (hj : j = (if toIdx > fromIdx then toIdx - 1 else toIdx).toNat) :
    (p.MoveInQueue fromIdx toIdx).1.Queue.length = p.Queue.length ∧
    (p.MoveInQueue fromIdx toIdx).1.Queue.Perm p.Queue ∧
    j < p.Queue.length ∧
    (p.MoveInQueue fromIdx toIdx).1.Queue[j]? = p.Queue[fromIdx.toNat]? ∧
    (p.MoveInQueue fromIdx toIdx).1.Queue.eraseIdx j = p.Queue.eraseIdx fromIdx.toNat := by
  have hi : fromIdx.toNat < p.Queue.length := by omega
  have hx : p.Queue[fromIdx.toNat]? = some (p.Queue.getD fromIdx.toNat none) := by
    rw [List.getD_eq_getElem _ _ hi, List.getElem?_eq_getElem hi]
  have hlen1 : (p.Queue.eraseIdx fromIdx.toNat).length + 1 = p.Queue.length := by
    rw [List.length_eraseIdx_of_lt hi]
    omega
  have hjle : j ≤ (p.Queue.eraseIdx fromIdx.toNat).length := by
    rw [hj]
    split <;> omega
  rw [moveInQueue_valid p fromIdx toIdx fromIdx.toNat j hf0 hf1 ht0 ht1 hne rfl hj]
  refine ⟨?_, ?_, by omega, ?_, ?_⟩
  · dsimp only
    rw [insertAt_length, hlen1]
  · exact (insertAt_perm _ _ j).trans (perm_cons_eraseIdx_of_getElem? _ _ _ hx).symm
  · dsimp only
    rw [insertAt_getElem? _ _ j hjle, hx]
  · exact insertAt_eraseIdx _ _ j hjle

/-- In every case `MoveInQueue` leaves a permutation of the queue. -/
theorem moveInQueue_perm (p : Player) (fromIdx toIdx : Int) :
    (p.MoveInQueue fromIdx toIdx).1.Queue.Perm p.Queue := by
  by_cases hv : 0 ≤ fromIdx ∧ fromIdx < p.Queue.length ∧ 0 ≤ toIdx ∧ toIdx < p.Queue.length
  · by_cases hne : fromIdx = toIdx
    · subst hne
      rw [moveInQueue_same p fromIdx hv.1 hv.2.1]
    · exact (moveInQueue_valid_facts p fromIdx toIdx _ hv.1 hv.2.1 hv.2.2.1 hv.2.2.2 hne
        rfl).2.1
  · rw [moveInQueue_invalid p fromIdx toIdx hv]

/-- In every case `MoveInQueue` writes to the queue only. -/
theorem moveInQueue_frame (p : Player) (fromIdx toIdx : Int) :
    (p.MoveInQueue fromIdx toIdx).1.Current = p.Current ∧
    (p.MoveInQueue fromIdx toIdx).1.Playing = p.Playing ∧
    (p.MoveInQueue fromIdx toIdx).1.volume = p.volume ∧
    (p.MoveInQueue fromIdx toIdx).1.voiceConn = p.voiceConn := by
  unfold Player.MoveInQueue
  split
  · exact ⟨rfl, rfl, rfl, rfl⟩
  · split <;> exact ⟨rfl, rfl, rfl, rfl⟩

/-- In every case `RemoveFromQueue` leaves a sublist of the queue and writes to
the queue only. -/
theorem removeFromQueue_sublist (p : Player) (index : Int) :
    (p.RemoveFromQueue index).1.Queue.Sublist p.Queue ∧
    (p.RemoveFromQueue index).1.Current = p.Current ∧
    (p.RemoveFromQueue index).1.Playing = p.Playing ∧
    (p.RemoveFromQueue index).1.volume = p.volume ∧
    (p.RemoveFromQueue index).1.voiceConn = p.voiceConn := by
  by_cases hv : 0 ≤ index ∧ index < p.Queue.length
  · rw [removeFromQueue_valid p index hv.1 hv.2]
    exact ⟨List.eraseIdx_sublist _ _, rfl, rfl, rfl, rfl⟩
  · rw [removeFromQueue_invalid p index hv]
    exact ⟨List.Sublist.refl _, rfl, rfl, rfl, rfl⟩

/-- C15. `RemoveFromQueue(i)` on every queue `q`: with `0 ≤ i < len(q)` it
returns no error and the queue becomes `q` without its element at index `i`,
the elements before `i` at their index, those after `i` one index lower, the
length `len(q) - 1`; otherwise it returns the index-out-of-range error and the
state is as before. Current, playing, volume and connection are unchanged in
both cases. -/
theorem C15_removeFromQueue (p : Player) (index : Int) :
    (0 ≤ index ∧ index < p.Queue.length →
      (p.RemoveFromQueue index).2 = none ∧
      (p.RemoveFromQueue index).1.Queue = p.Queue.eraseIdx index.toNat ∧
      ((p.RemoveFromQueue index).1.Queue.length : Int) = p.Queue.length - 1 ∧
      (∀ k, k < index.toNat → (p.RemoveFromQueue index).1.Queue[k]? = p.Queue[k]?) ∧
      (∀ k, index.toNat ≤ k → (p.RemoveFromQueue index).1.Queue[k]? = p.Queue[k + 1]?)) ∧
    (¬ (0 ≤ index ∧ index < p.Queue.length) →
      p.RemoveFromQueue index = (p, some "index out of range")) ∧
    (p.RemoveFromQueue index).1.Current = p.Current ∧
    (p.RemoveFromQueue index).1.Playing = p.Playing ∧
    (p.RemoveFromQueue index).1.volume = p.volume ∧
    (p.RemoveFromQueue index).1.voiceConn = p.voiceConn := by
  refine ⟨fun hv => ?_, removeFromQueue_invalid p index, (removeFromQueue_sublist p index).2⟩
  have hi : index.toNat < p.Queue.length := by omega
  rw [removeFromQueue_valid p index hv.1 hv.2]
  refine ⟨rfl, rfl, ?_, fun k hk => ?_, fun k hk => ?_⟩
  · show ((p.Queue.eraseIdx index.toNat).length : Int) = _
    rw [List.length_eraseIdx_of_lt hi]
    omega
  · exact List.getElem?_eraseIdx_of_lt _ _ _ hk
  · exact List.getElem?_eraseIdx_of_ge _ _ _ hk

/-- C15 on the queue `[A, B, C]`: index 1 is removed, index 3 (the length) and
index -1 are refused. -/
theorem C15_removeFromQueue_witness :
    ((queueABC.RemoveFromQueue 1).2 = none ∧
      (queueABC.RemoveFromQueue 1).1.Queue = [some track1, some track3]) ∧
    queueABC.RemoveFromQueue 3 = (queueABC, some "index out of range") ∧
    queueABC.RemoveFromQueue (-1) = (queueABC, some "index out of range") :=
  ⟨⟨((C15_removeFromQueue queueABC 1).1 (by decide)).1,
    ((C15_removeFromQueue queueABC 1).1 (by decide)).2.1⟩,
   (C15_removeFromQueue queueABC 3).2.1 (by decide),
   (C15_removeFromQueue queueABC (-1)).2.1 (by decide)⟩

/-- C16. The code at the case of the specification: `MoveInQueue(0, 2)` on
`[A, B, C]` returns no error and yields `[B, A, C]`, with `A` at index 1 and
`C` at index 2; `MoveInQueue(2, 0)` yields `[C, A, B]`; and `MoveInQueue(0, 1)`
leaves `[A, B, C]` as it is. -/
theorem C16_moveInQueue_forward :
    (queueABC.MoveInQueue 0 2).2 = none ∧
    (queueABC.MoveInQueue 0 2).1.Queue = [some track2, some track1, some track3] ∧
    (queueABC.MoveInQueue 0 2).1.Queue[2]? = some (some track3) ∧
    (queueABC.MoveInQueue 2 0).1.Queue = [some track3, some track1, some track2] ∧
    (queueABC.MoveInQueue 0 1).1.Queue = [some track1, some track2, some track3] := by
  decide

/-- C17. `MoveInQueue(from, to)` on every queue `q`: with both indices in
`[0, len(q))` it returns no error, the resulting queue is as long as `q` and a
permutation of it, and it holds the moved track at an index whose deletion gives
`q` without index `from`; with `from = to` the state is unchanged; with an index
out of range it returns the index-out-of-range error and the state is
unchanged. -/
theorem C17_moveInQueue (p : Player) (fromIdx toIdx : Int) :
    (0 ≤ fromIdx ∧ fromIdx < p.Queue.length ∧ 0 ≤ toIdx ∧ toIdx < p.Queue.length →
      (p.MoveInQueue fromIdx toIdx).2 = none ∧
      (p.MoveInQueue fromIdx toIdx).1.Queue.length = p.Queue.length ∧
      (p.MoveInQueue fromIdx toIdx).1.Queue.Perm p.Queue ∧
      ∃ j, j < p.Queue.length ∧
        (p.MoveInQueue fromIdx toIdx).1.Queue[j]? = p.Queue[fromIdx.toNat]? ∧
        (p.MoveInQueue fromIdx toIdx).1.Queue.eraseIdx j = p.Queue.eraseIdx fromIdx.toNat) ∧
    (fromIdx = toIdx → (p.MoveInQueue fromIdx toIdx).1 = p) ∧
    (¬ (0 ≤ fromIdx ∧ fromIdx < p.Queue.length ∧ 0 ≤ toIdx ∧ toIdx < p.Queue.length) →
      p.MoveInQueue fromIdx toIdx = (p, some "index out of range")) := by
  refine ⟨fun hv => ?_, fun heq => ?_, moveInQueue_invalid p fromIdx toIdx⟩
  · by_cases hne : fromIdx = toIdx
    · subst hne
      rw [moveInQueue_same p fromIdx hv.1 hv.2.1]
      exact ⟨rfl, rfl, List.Perm.refl _, fromIdx.toNat, by omega, rfl, rfl⟩
    · obtain ⟨h1, h2, h3, h4, h5⟩ := moveInQueue_valid_facts p fromIdx toIdx _ hv.1 hv.2.1
        hv.2.2.1 hv.2.2.2 hne rfl
      refine ⟨?_, h1, h2, _, h3, h4, h5⟩
      rw [moveInQueue_valid p fromIdx toIdx _ _ hv.1 hv.2.1 hv.2.2.1 hv.2.2.2 hne rfl rfl]
  · subst heq
    by_cases hv : 0 ≤ fromIdx ∧ fromIdx < p.Queue.length
    · rw [moveInQueue_same p fromIdx hv.1 hv.2]
    · rw [moveInQueue_invalid p fromIdx fromIdx (fun c => hv ⟨c.1, c.2.1⟩)]

/-- C17 on the queue `[A, B, C]`: a move from 2 to 0, a move from 1 to 1, and a
move to index 3, which is out of range. -/
theorem C17_moveInQueue_witness :
    ((queueABC.MoveInQueue 2 0).2 = none ∧
      (queueABC.MoveInQueue 2 0).1.Queue.length = queueABC.Queue.length ∧
      (queueABC.MoveInQueue 2 0).1.Queue.Perm queueABC.Queue) ∧
    (queueABC.MoveInQueue 2 0).1.Queue = [some track3, some track1, some track2] ∧
    (queueABC.MoveInQueue 1 1).1 = queueABC ∧
    queueABC.MoveInQueue 0 3 = (queueABC, some "index out of range") :=
  ⟨⟨((C17_moveInQueue queueABC 2 0).1 (by decide)).1,
    ((C17_moveInQueue queueABC 2 0).1 (by decide)).2.1,
    ((C17_moveInQueue queueABC 2 0).1 (by decide)).2.2.1⟩,
   by decide,
   (C17_moveInQueue queueABC 1 1).2.1 rfl,
   (C17_moveInQueue queueABC 0 3).2.2 (by decide)⟩

/-! ## Session invariants -/

theorem runOps_cons (p : Player) (op : Op) (ops : List Op) (p2 : Player)
    (h : runOps p (op :: ops) = some p2) :
    ∃ p1, applyOp p op = some p1 ∧ runOps p1 ops = some p2 := by
  unfold runOps at h
  cases h1 : applyOp p op with
  | none => rw [h1] at h; cases h
  | some p1 => rw [h1] at h; exact ⟨p1, rfl, h⟩

/-- The tracks added by `op :: ops` are the one `op` adds, when it is an
`AddToQueue`, and those `ops` adds. -/
theorem addedTracks_cons (op : Op) (ops : List Op) :
    (∃ t, op = .addToQueue t ∧ addedTracks (op :: ops) = t :: addedTracks ops) ∨
    ((∀ t, op ≠ .addToQueue t) ∧ addedTracks (op :: ops) = addedTracks ops) := by
  cases op with
  | addToQueue t => exact Or.inl ⟨t, rfl, rfl⟩
  | play => exact Or.inr ⟨fun _ h => Op.noConfusion h, rfl⟩
  | pause => exact Or.inr ⟨fun _ h => Op.noConfusion h, rfl⟩
  | resume => exact Or.inr ⟨fun _ h => Op.noConfusion h, rfl⟩
  | stop => exact Or.inr ⟨fun _ h => Op.noConfusion h, rfl⟩
  | skip => exact Or.inr ⟨fun _ h => Op.noConfusion h, rfl⟩
  | setVolume v => exact Or.inr ⟨fun _ h => Op.noConfusion h, rfl⟩
  | clearQueue => exact Or.inr ⟨fun _ h => Op.noConfusion h, rfl⟩
  | removeFromQueue i => exact Or.inr ⟨fun _ h => Op.noConfusion h, rfl⟩
  | moveInQueue f t => exact Or.inr ⟨fun _ h => Op.noConfusion h, rfl⟩
  | connectToVoice c => exact Or.inr ⟨fun _ h => Op.noConfusion h, rfl⟩
  | disconnectFromVoice => exact Or.inr ⟨fun _ h => Op.noConfusion h, rfl⟩

/-- `Play` either leaves the session as it is or loads the head of the queue. -/
theorem play_cases (p : Player) :
    p.Play.1 = p ∨
    ∃ head rest, p.Queue = head :: rest ∧
      p.Play.1 = { p with Current := head, Queue := rest, Playing := true } := by
  unfold Player.Play
  split
  · exact Or.inl rfl
  · cases hq : p.Queue with
    | nil => exact Or.inl rfl
    | cons head rest => exact Or.inr ⟨head, rest, rfl, rfl⟩

/-- What an operation other than `AddToQueue` does to the current track and the
queue: either it resets them to no current track and an empty queue, or the
current track followed by the queue is, up to order, part of what it was. -/
theorem applyOp_shape (p p1 : Player) (op : Op) (hop : ∀ t, op ≠ .addToQueue t)
    (h : applyOp p op = some p1) :
    (p1.Current = none ∧ p1.Queue = []) ∨
    (p1.Current :: p1.Queue).Subperm (p.Current :: p.Queue) := by
  have hsame : ∀ q : Player, q.Current = p.Current → q.Queue = p.Queue →
      (q.Current :: q.Queue).Subperm (p.Current :: p.Queue) := by
    intro q h1 h2
    rw [h1, h2]
  have hpop : ∀ (c head : Option Track) (rest : List (Option Track)),
      (head :: rest).Subperm (c :: head :: rest) :=
    fun c head rest => (List.sublist_cons_self _ _).subperm
  cases op with
  | addToQueue t => exact absurd rfl (hop t)
  | play =>
    obtain rfl : p.Play.1 = p1 := Option.some.inj h
    right
    rcases play_cases p with h1 | ⟨head, rest, hq, h1⟩
    · rw [h1]
    · rw [h1, hq]
      exact hpop _ head rest
  | pause =>
    obtain rfl : p.Pause = p1 := Option.some.inj h
    exact Or.inr (hsame _ rfl rfl)
  | resume =>
    obtain rfl : p.Resume = p1 := Option.some.inj h
    right
    unfold Player.Resume
    split
    · exact hsame _ rfl rfl
    · exact hsame _ rfl rfl
  | stop =>
    obtain rfl : p.Stop = p1 := Option.some.inj h
    exact Or.inl ⟨rfl, rfl⟩
  | skip =>
    obtain rfl : p.Skip.1 = p1 := Option.some.inj h
    cases hq : p.Queue with
    | nil =>
      rw [skip_nil p hq]
      exact Or.inl ⟨rfl, hq⟩
    | cons head rest =>
      rw [skip_cons p head rest hq]
      exact Or.inr (hpop _ head rest)
  | setVolume v =>
    obtain rfl : p.SetVolume v = p1 := Option.some.inj h
    exact Or.inr (hsame _ rfl rfl)
  | clearQueue =>
    obtain rfl : p.ClearQueue = p1 := Option.some.inj h
    exact Or.inr (List.Sublist.subperm (List.Sublist.cons₂ _ (List.nil_sublist _)))
  | removeFromQueue i =>
    obtain rfl : (p.RemoveFromQueue i).1 = p1 := Option.some.inj h
    obtain ⟨hs, hc, _⟩ := removeFromQueue_sublist p i
    rw [hc]
    exact Or.inr (List.Sublist.subperm (List.Sublist.cons₂ _ hs))
  | moveInQueue f t =>
    obtain rfl : (p.MoveInQueue f t).1 = p1 := Option.some.inj h
    rw [(moveInQueue_frame p f t).1]
    exact Or.inr (List.Perm.subperm (List.Perm.cons _ (moveInQueue_perm p f t)))
  | connectToVoice c =>
    right
    simp only [applyOp, Player.ConnectToVoice] at h
    cases hv : p.voiceConn with
    | none => rw [hv] at h; cases h
    | some vc =>
      rw [hv] at h
      obtain rfl := Option.some.inj h
      exact hsame _ rfl rfl
  | disconnectFromVoice =>
    right
    simp only [applyOp, Player.DisconnectFromVoice] at h
    cases hv : p.voiceConn with
    | none => rw [hv] at h; cases h
    | some vc =>
      rw [hv] at h
      obtain rfl := Option.some.inj h
      exact hsame _ rfl rfl

/-- One operation keeps: playing implies a current track, and no nil pointer in
the queue; as long as it does not add a nil pointer. -/
theorem applyOp_playing_current (p p1 : Player) (op : Op)
    (hop : ∀ t, op = .addToQueue t → t ≠ none) (h : applyOp p op = some p1)
    (hinv : (p.Playing = true → p.Current ≠ none) ∧ none ∉ p.Queue) :
    (p1.Playing = true → p1.Current ≠ none) ∧ none ∉ p1.Queue := by
  obtain ⟨hpc, hnil⟩ := hinv
  cases op with
  | addToQueue t =>
    obtain rfl : p.AddToQueue t = p1 := Option.some.inj h
    refine ⟨hpc, ?_⟩
    intro hmem
    rcases List.mem_append.1 hmem with h1 | h1
    · exact hnil h1
    · exact hop t rfl (List.mem_singleton.1 h1).symm
  | play =>
    obtain rfl : p.Play.1 = p1 := Option.some.inj h
    rcases play_cases p with h1 | ⟨head, rest, hq, h1⟩
    · rw [h1]
      exact ⟨hpc, hnil⟩
    · rw [h1]
      rw [hq] at hnil
      refine ⟨fun _ hc => hnil ?_, fun hm => hnil (List.mem_cons_of_mem _ hm)⟩
      have hh : head = none := hc
      rw [hh]
      exact List.mem_cons_self _ _
  | pause =>
    obtain rfl : p.Pause = p1 := Option.some.inj h
    exact ⟨fun hp => Bool.noConfusion hp, hnil⟩
  | resume =>
    obtain rfl : p.Resume = p1 := Option.some.inj h
    unfold Player.Resume
    split
    · rename_i hs
      refine ⟨fun _ hc => ?_, hnil⟩
      have hc2 : p.Current = none := hc
      rw [hc2] at hs
      exact Bool.noConfusion hs
    · exact ⟨hpc, hnil⟩
  | stop =>
    obtain rfl : p.Stop = p1 := Option.some.inj h
    exact ⟨fun hp => Bool.noConfusion hp, fun hm => List.not_mem_nil _ hm⟩
  | skip =>
    obtain rfl : p.Skip.1 = p1 := Option.some.inj h
    cases hq : p.Queue with
    | nil =>
      rw [skip_nil p hq]
      exact ⟨fun hp => Bool.noConfusion hp, hnil⟩
    | cons head rest =>
      rw [skip_cons p head rest hq]
      rw [hq] at hnil
      refine ⟨fun _ hc => hnil ?_, fun hm => hnil (List.mem_cons_of_mem _ hm)⟩
      have hh : head = none := hc
      rw [hh]
      exact List.mem_cons_self _ _
  | setVolume v =>
    obtain rfl : p.SetVolume v = p1 := Option.some.inj h
    exact ⟨hpc, hnil⟩
  | clearQueue =>
    obtain rfl : p.ClearQueue = p1 := Option.some.inj h
    exact ⟨hpc, fun hm => List.not_mem_nil _ hm⟩
  | removeFromQueue i =>
    obtain rfl : (p.RemoveFromQueue i).1 = p1 := Option.some.inj h
    obtain ⟨hs, hc, hpl, _⟩ := removeFromQueue_sublist p i
    rw [hc, hpl]
    exact ⟨hpc, fun hm => hnil (hs.subset hm)⟩
  | moveInQueue f t =>
    obtain rfl : (p.MoveInQueue f t).1 = p1 := Option.some.inj h
    obtain ⟨hc, hpl, _⟩ := moveInQueue_frame p f t
    rw [hc, hpl]
    exact ⟨hpc, fun hm => hnil ((moveInQueue_perm p f t).subset hm)⟩
  | connectToVoice c =>
    simp only [applyOp, Player.ConnectToVoice] at h
    cases hv : p.voiceConn with
    | none => rw [hv] at h; cases h
    | some vc =>
      rw [hv] at h
      obtain rfl := Option.some.inj h
      exact ⟨hpc, hnil⟩
  | disconnectFromVoice =>
    simp only [applyOp, Player.DisconnectFromVoice] at h
    cases hv : p.voiceConn with
    | none => rw [hv] at h; cases h
    | some vc =>
      rw [hv] at h
      obtain rfl := Option.some.inj h
      exact ⟨hpc, hnil⟩

theorem runOps_playing_current (ops : List Op) :
    ∀ p p2 : Player, none ∉ addedTracks ops → runOps p ops = some p2 →
      ((p.Playing = true → p.Current ≠ none) ∧ none ∉ p.Queue) →
      ((p2.Playing = true → p2.Current ≠ none) ∧ none ∉ p2.Queue) := by
  induction ops with
  | nil =>
    intro p p2 _ h hinv
    obtain rfl : p = p2 := Option.some.inj h
    exact hinv
  | cons op ops ih =>
    intro p p2 hadd h hinv
    obtain ⟨p1, h1, h2⟩ := runOps_cons p op ops p2 h
    rcases addedTracks_cons op ops with ⟨t, hop, hat⟩ | ⟨hop, hat⟩
    · rw [hat] at hadd
      refine ih p1 p2 (fun hm => hadd (List.mem_cons_of_mem _ hm)) h2
        (applyOp_playing_current p p1 op ?_ h1 hinv)
      intro t2 ht2 hnone
      rw [hop] at ht2
      obtain rfl : t = t2 := Op.addToQueue.inj ht2
      exact hadd (hnone ▸ List.mem_cons_self _ _)
    · rw [hat] at hadd
      exact ih p1 p2 hadd h2
        (applyOp_playing_current p p1 op (fun t ht => absurd ht (hop t)) h1 hinv)

/-- C18, as stated, fails: `AddToQueue(nil)` followed by `Play` on a fresh
session reaches a state in which `playing` is true and no current track is
set. -/
theorem C18_counterexample :
    ∃ p, runOps NewPlayer [.addToQueue none, .play] = some p ∧
      p.Playing = true ∧ p.Current = none :=
  ⟨{ NewPlayer with Playing := true }, by decide, rfl, rfl⟩

/-- C18, amended. In every state reached from `NewPlayer` by a sequence of the
public operations whose `AddToQueue` arguments are all non-nil, if `playing`
is true then a current track is set. -/
theorem C18_playing_implies_current (ops : List Op) (p : Player)
    (hadd : none ∉ addedTracks ops) (hrun : runOps NewPlayer ops = some p)
    (hplaying : p.Playing = true) : p.Current ≠ none :=
  (runOps_playing_current ops NewPlayer p hadd hrun
    ⟨fun hp => Bool.noConfusion hp, fun hm => List.not_mem_nil _ hm⟩).1 hplaying

/-- C18, amended, on a run that adds two tracks, plays, pauses, skips and
resumes: the session plays `track2`. -/
theorem C18_playing_implies_current_witness :
    runOps NewPlayer [.addToQueue (some track1), .addToQueue (some track2), .play, .pause,
        .skip, .resume]
      = some { NewPlayer with Playing := true, Current := some track2 } ∧
    ({ NewPlayer with Playing := true, Current := some track2 } : Player).Current ≠ none :=
  ⟨by decide,
   C18_playing_implies_current
    [.addToQueue (some track1), .addToQueue (some track2), .play, .pause, .skip, .resume]
    { NewPlayer with Playing := true, Current := some track2 } (by decide) (by decide) rfl⟩

/-- A static variant of the invariant: when the tracks added along a run are
non-nil and pairwise different, the current track followed by the queue has no
repetition and holds none of the tracks still to be added. -/
theorem runOps_current_queue_nodup (ops : List Op) :
    ∀ p p2 : Player, (addedTracks ops).Nodup → none ∉ addedTracks ops →
      runOps p ops = some p2 →
      (p.Current :: p.Queue).Nodup →
      (∀ t ∈ addedTracks ops, t ∉ p.Current :: p.Queue) →
      (p2.Current :: p2.Queue).Nodup := by
  induction ops with
  | nil =>
    intro p p2 _ _ h hnd _
    obtain rfl : p = p2 := Option.some.inj h
    exact hnd
  | cons op ops ih =>
    intro p p2 hdis hnn h hnd hfresh
    obtain ⟨p1, h1, h2⟩ := runOps_cons p op ops p2 h
    rcases addedTracks_cons op ops with ⟨t, hop, hat⟩ | ⟨hop, hat⟩
    · rw [hat] at hdis hnn hfresh
      subst hop
      obtain rfl : p.AddToQueue t = p1 := Option.some.inj h1
      have ht : t ∉ p.Current :: p.Queue := hfresh t (List.mem_cons_self _ _)
      have hd := List.nodup_cons.1 hdis
      have hq : (p.AddToQueue t).Current :: (p.AddToQueue t).Queue
          = (p.Current :: p.Queue) ++ [t] := rfl
      refine ih _ p2 hd.2 (fun hm => hnn (List.mem_cons_of_mem _ hm)) h2 ?_ ?_
      · rw [hq]
        refine List.Nodup.append hnd (List.nodup_singleton t) ?_
        intro x hx1 hx2
        rw [List.mem_singleton.1 hx2] at hx1
        exact ht hx1
      · intro t2 ht2 hm
        rw [hq] at hm
        rcases List.mem_append.1 hm with hm1 | hm1
        · exact hfresh t2 (List.mem_cons_of_mem _ ht2) hm1
        · rw [List.mem_singleton.1 hm1] at ht2
          exact hd.1 ht2
    · rw [hat] at hdis hnn hfresh
      rcases applyOp_shape p p1 op hop h1 with ⟨hc, hq⟩ | hsub
      · refine ih p1 p2 hdis hnn h2 ?_ ?_
        · rw [hc, hq]
          exact List.nodup_singleton _
        · intro t2 ht2 hm
          rw [hc, hq] at hm
          rw [List.mem_singleton.1 hm] at ht2
          exact hnn ht2
      · refine ih p1 p2 hdis hnn h2 ?_ ?_
        · obtain ⟨l, hl1, hl2⟩ := hsub
          exact hl1.nodup_iff.1 (hnd.sublist hl2)
        · intro t2 ht2 hm
          exact hfresh t2 ht2 (hsub.subset hm)

/-- C19, as stated, fails: adding the same track twice and calling `Play` on a
fresh session reaches a state whose queue holds the current track. -/
theorem C19_counterexample :
    ∃ p, runOps NewPlayer [.addToQueue (some track1), .addToQueue (some track1), .play]
        = some p ∧
      p.Current = some track1 ∧ some track1 ∈ p.Queue :=
  ⟨{ NewPlayer with Playing := true, Current := some track1, Queue := [some track1] },
    by decide, rfl, by decide⟩

end music

namespace security

/-! ## The history invariant -/

theorem mem_validRequests (now : Time) (window : Duration) (h : List Time) (t : Time)
    (ht : t ∈ validRequests now window h) : now - t < window := by
  rw [validRequests_eq_filter] at ht
  simpa using (List.mem_filter.1 ht).2

/-- C20, as stated, fails: on the limiter of quota 1 and window 10, after
`IsAllowed("u")` at 0 and `GetResetTime("u")` at 20, a non-decreasing clock, the
timestamp 0 is still recorded for the key although `20 - 0 < 10` is false. -/
theorem C20_counterexample :
    ([Call.isAllowed "u" 0, Call.getResetTime "u" 20].map Call.instant).Pairwise (· ≤ ·) ∧
    (runCalls (NewRateLimiter 1 10) [.isAllowed "u" 0, .getResetTime "u" 20]).limits "u"
      = [0] ∧
    ¬ ∀ t ∈ (runCalls (NewRateLimiter 1 10) [.isAllowed "u" 0, .getResetTime "u" 20]).limits "u",
        (20 : Int) - t < 10 := by
  decide

/-- C20, amended. With a window `w > 0`, immediately after `IsAllowed` or
`GetRemainingRequests` on a key at instant `now`, every timestamp `t` recorded
for that key satisfies `now - t < w`; `GetResetTime` prunes nothing and leaves
the history of the key as it was. -/
theorem C20_history_within_window (rl : RateLimiter) (userID : String) (now : Time)
    (hw : 0 < rl.window) :
    (∀ t ∈ (rl.IsAllowed userID now).2.limits userID, now - t < rl.window) ∧
    (∀ t ∈ (rl.GetRemainingRequests userID now).2.limits userID, now - t < rl.window) ∧
    (rl.GetResetTime userID now).2.limits userID = rl.limits userID := by
  refine ⟨fun t ht => ?_, fun t ht => ?_, by rw [getResetTime_snd]⟩
  · rw [isAllowed_limits_self] at ht
    split at ht
    · rcases List.mem_append.1 ht with h | h
      · exact mem_validRequests now rl.window _ t h
      · rw [List.mem_singleton.1 h]
        simpa using hw
    · exact mem_validRequests now rl.window _ t ht
  · rw [getRemainingRequests_limits_self] at ht
    exact mem_validRequests now rl.window _ t ht

/-- C20, amended, on the limiter of quota 2 and window 10 that admitted the key
at 0 and at 4: after `IsAllowed` at 12 the history is `[4, 12]`. -/
theorem C20_history_within_window_witness :
    ((runCalls (NewRateLimiter 2 10)
        [.isAllowed "u" 0, .isAllowed "u" 4]).IsAllowed "u" 12).2.limits "u" = [4, 12] ∧
    ∀ t ∈ ((runCalls (NewRateLimiter 2 10)
        [.isAllowed "u" 0, .isAllowed "u" 4]).IsAllowed "u" 12).2.limits "u",
      (12 : Int) - t < 10 :=
  ⟨by decide,
   (C20_history_within_window
      (runCalls (NewRateLimiter 2 10) [.isAllowed "u" 0, .isAllowed "u" 4]) "u" 12
      (by decide)).1⟩

end security

namespace security

/-! ## The order of the history -/

theorem validRequests_sublist (now : Time) (window : Duration) (h : List Time) :
    (validRequests now window h).Sublist h := by
  rw [validRequests_eq_filter]
  exact List.filter_sublist h

/-- One call at an instant not before any recorded timestamp of the key keeps
the history of the key in non-decreasing order and not after that instant. -/
theorem stepCall_sorted (rl : RateLimiter) (c : Call) (k : String)
    (hs : (rl.limits k).Pairwise (· ≤ ·)) (hle : ∀ t ∈ rl.limits k, t ≤ c.instant) :
    ((stepCall rl c).limits k).Pairwise (· ≤ ·) ∧
    ∀ t ∈ (stepCall rl c).limits k, t ≤ c.instant := by
  have hkept : ∀ now, (validRequests now rl.window (rl.limits k)).Pairwise (· ≤ ·) :=
    fun now => hs.sublist (validRequests_sublist now rl.window _)
  have hkle : ∀ now, ∀ t ∈ validRequests now rl.window (rl.limits k), t ≤ c.instant :=
    fun now t ht => hle t ((validRequests_sublist now rl.window _).subset ht)
  cases c with
  | isAllowed k2 now =>
    show ((rl.IsAllowed k2 now).2.limits k).Pairwise (· ≤ ·) ∧
      ∀ t ∈ (rl.IsAllowed k2 now).2.limits k, t ≤ now
    by_cases hk : k = k2
    · subst hk
      rw [isAllowed_limits_self]
      split
      · refine ⟨List.pairwise_append.2 ⟨hkept now, List.pairwise_singleton _ _, ?_⟩, ?_⟩
        · intro a ha b hb
          rw [List.mem_singleton.1 hb]
          exact hkle now a ha
        · intro t ht
          rcases List.mem_append.1 ht with h | h
          · exact hkle now t h
          · exact le_of_eq (List.mem_singleton.1 h)
      · exact ⟨hkept now, hkle now⟩
    · rw [isAllowed_limits_other _ _ _ _ hk]
      exact ⟨hs, hle⟩
  | getRemainingRequests k2 now =>
    show ((rl.GetRemainingRequests k2 now).2.limits k).Pairwise (· ≤ ·) ∧
      ∀ t ∈ (rl.GetRemainingRequests k2 now).2.limits k, t ≤ now
    by_cases hk : k = k2
    · subst hk
      rw [getRemainingRequests_limits_self]
      exact ⟨hkept now, hkle now⟩
    · rw [getRemainingRequests_limits_other _ _ _ _ hk]
      exact ⟨hs, hle⟩
  | getResetTime k2 now =>
    show ((rl.GetResetTime k2 now).2.limits k).Pairwise (· ≤ ·) ∧
      ∀ t ∈ (rl.GetResetTime k2 now).2.limits k, t ≤ now
    rw [getResetTime_snd]
    exact ⟨hs, hle⟩

theorem runCalls_sorted (k : String) (cs : List Call) :
    ∀ rl : RateLimiter, (cs.map Call.instant).Pairwise (· ≤ ·) →
      (rl.limits k).Pairwise (· ≤ ·) →
      (∀ t ∈ rl.limits k, ∀ c ∈ cs, t ≤ c.instant) →
      ((runCalls rl cs).limits k).Pairwise (· ≤ ·) := by
  induction cs with
  | nil => intro rl _ hs _; exact hs
  | cons c cs ih =>
    intro rl hmono hs hle
    rw [List.map_cons, List.pairwise_cons] at hmono
    obtain ⟨h1, h2⟩ := stepCall_sorted rl c k hs
      (fun t ht => hle t ht c (List.mem_cons_self _ _))
    refine ih (stepCall rl c) hmono.2 h1 ?_
    intro t ht c2 hc2
    exact le_trans (h2 t ht) (hmono.1 _ (List.mem_map_of_mem _ hc2))

/-- One call extends the history of a key by what it admits at most: in
order, the new history is part of the old one followed by the admission. -/
theorem stepCall_sublist (rl : RateLimiter) (c : Call) (k : String) :
    ((stepCall rl c).limits k).Sublist (rl.limits k ++ admission k rl c) := by
  cases c with
  | isAllowed k2 now =>
    show ((rl.IsAllowed k2 now).2.limits k).Sublist _
    by_cases hk : k2 = k
    · subst hk
      rw [isAllowed_limits_self, admission_isAllowed_self]
      split
      · exact List.Sublist.append (validRequests_sublist _ _ _) (List.Sublist.refl _)
      · rw [List.append_nil]
        exact validRequests_sublist _ _ _
    · rw [isAllowed_limits_other _ _ _ _ (fun e => hk e.symm),
        admission_isAllowed_other _ _ _ _ hk, List.append_nil]
  | getRemainingRequests k2 now =>
    show ((rl.GetRemainingRequests k2 now).2.limits k).Sublist (rl.limits k ++ [])
    rw [List.append_nil]
    by_cases hk : k = k2
    · subst hk
      rw [getRemainingRequests_limits_self]
      exact validRequests_sublist _ _ _
    · rw [getRemainingRequests_limits_other _ _ _ _ hk]
  | getResetTime k2 now =>
    show ((rl.GetResetTime k2 now).2.limits k).Sublist (rl.limits k ++ [])
    rw [List.append_nil, getResetTime_snd]

theorem runCalls_sublist (k : String) (cs : List Call) :
    ∀ rl : RateLimiter,
      ((runCalls rl cs).limits k).Sublist (rl.limits k ++ admissions k rl cs) := by
  induction cs with
  | nil => intro rl; simp [runCalls, admissions]
  | cons c cs ih =>
    intro rl
    have h1 := ih (stepCall rl c)
    have h2 : ((stepCall rl c).limits k ++ admissions k (stepCall rl c) cs).Sublist
        ((rl.limits k ++ admission k rl c) ++ admissions k (stepCall rl c) cs) :=
      List.Sublist.append (stepCall_sublist rl c k) (List.Sublist.refl _)
    rw [List.append_assoc] at h2
    exact h1.trans h2

/-- C21. History is ordered oldest-first: after every sequence of calls issued
at non-decreasing instants on a limiter built by `NewRateLimiter`, the
timestamps recorded for a key are in non-decreasing order, they are admissions
of that key in the order in which they were admitted, and the element at index
0, the one `GetResetTime` reads, is not after any recorded timestamp of the
key. -/
theorem C21_history_oldest_first (q : Int) (w : Duration) (cs : List Call)
    (hmono : (cs.map Call.instant).Pairwise (· ≤ ·)) (userID : String) :
    ((runCalls (NewRateLimiter q w) cs).limits userID).Pairwise (· ≤ ·) ∧
    ((runCalls (NewRateLimiter q w) cs).limits userID).Sublist
      (admissions userID (NewRateLimiter q w) cs) ∧
    ∀ oldest ∈ ((runCalls (NewRateLimiter q w) cs).limits userID).head?,
      ∀ t ∈ (runCalls (NewRateLimiter q w) cs).limits userID, oldest ≤ t := by
  have hs := runCalls_sorted userID cs (NewRateLimiter q w) hmono List.Pairwise.nil
    (fun t ht => absurd ht (List.not_mem_nil t))
  have hsub := runCalls_sublist userID cs (NewRateLimiter q w)
  refine ⟨hs, by simpa [NewRateLimiter] using hsub, ?_⟩
  intro oldest ho t ht
  cases hl : (runCalls (NewRateLimiter q w) cs).limits userID with
  | nil => rw [hl] at ht; cases ht
  | cons a rest =>
    rw [hl] at hs ho ht
    obtain rfl : a = oldest := by simpa using ho
    rcases List.mem_cons.1 ht with h | h
    · exact le_of_eq h.symm
    · exact (List.pairwise_cons.1 hs).1 t h

/-- C21 on a run of four calls with quota 2 and window 10: the history of the
key is `[8, 12]`. -/
theorem C21_history_oldest_first_witness :
    (runCalls (NewRateLimiter 2 10)
        [.isAllowed "u" 0, .isAllowed "u" 8, .getResetTime "u" 9, .isAllowed "u" 12]).limits "u"
      = [8, 12] ∧
    ((runCalls (NewRateLimiter 2 10)
        [.isAllowed "u" 0, .isAllowed "u" 8, .getResetTime "u" 9,
          .isAllowed "u" 12]).limits "u").Pairwise (· ≤ ·) :=
  ⟨by decide,
   (C21_history_oldest_first 2 10
      [.isAllowed "u" 0, .isAllowed "u" 8, .getResetTime "u" 9, .isAllowed "u" 12]
      (by decide) "u").1⟩

end security

namespace security

/-! ## Goroutines on the limiter -/

/-- A goroutine that runs the four statements of `IsAllowed` with no other
goroutine in between does what `IsAllowed` does. -/
theorem runSchedule_alone (rl : RateLimiter) (userID : String) (now : Time) (g2 : Goroutine) :
    (runSchedule rl (Goroutine.start userID now) g2 [false, false, false, false]).1
      = (rl.IsAllowed userID now).2 ∧
    (runSchedule rl (Goroutine.start userID now) g2 [false, false, false, false]).2.1.pc
      = .returned (rl.IsAllowed userID now).1 := by
  by_cases h : ((validRequests now rl.window (rl.limits userID)).length : Int) ≥ rl.maxReq
  · simp [runSchedule, stepGoroutine, Goroutine.start, RateLimiter.IsAllowed, setLimit, h]
  · simp [runSchedule, stepGoroutine, Goroutine.start, RateLimiter.IsAllowed, setLimit, h]

/-- C22. The code under two goroutines that call `IsAllowed("u")` on a limiter
of quota 1 and window 10, at the instants 0 and 1: both pass the test of the
limit before either records its timestamp, both return true, and the history
of the key holds two timestamps, one more than the quota. -/
theorem C22_two_goroutines_exceed_quota :
    (runSchedule (NewRateLimiter 1 10) (Goroutine.start "u" 0) (Goroutine.start "u" 1)
      [false, false, false, true, true, true, false, true]).2.1.pc = .returned true ∧
    (runSchedule (NewRateLimiter 1 10) (Goroutine.start "u" 0) (Goroutine.start "u" 1)
      [false, false, false, true, true, true, false, true]).2.2.pc = .returned true ∧
    (runSchedule (NewRateLimiter 1 10) (Goroutine.start "u" 0) (Goroutine.start "u" 1)
      [false, false, false, true, true, true, false, true]).1.limits "u" = [0, 1] ∧
    (inSpan 1 10 [0, 1]).length = 2 ∧ (NewRateLimiter 1 10).maxReq = 1 := by
  decide

/-! ## Permissions -/

/-- C25. `HasPermission(perms, required)` returns true if and only if `perms`
contains `required` or contains `PermissionAdmin`; it returns false on the
empty list. -/
theorem C25_hasPermission (perms : List Permission) (required : Permission) :
    (HasPermission perms required = true ↔ (required ∈ perms ∨ PermissionAdmin ∈ perms)) ∧
    HasPermission [] required = false := by
  refine ⟨?_, rfl⟩
  induction perms with
  | nil => simp [HasPermission]
  | cons perm rest ih =>
    unfold HasPermission
    by_cases h : perm = required ∨ perm = PermissionAdmin
    · rw [if_pos h]
      rcases h with h | h
      · simp [h]
      · simp [h]
    · rw [if_neg h, ih]
      have h1 : ¬ required = perm := fun e => h (Or.inl e.symm)
      have h2 : ¬ PermissionAdmin = perm := fun e => h (Or.inr e.symm)
      simp [h1, h2]

/-- The cases of `TestHasPermission`, and a list without admin that lacks the
required permission. -/
theorem hasPermission_tests :
    HasPermission [PermissionMusic, PermissionDownload] PermissionMusic = true ∧
    HasPermission [PermissionMusic, PermissionDownload] PermissionAI = false ∧
    HasPermission [PermissionAdmin] PermissionAI = true ∧
    HasPermission [] PermissionMusic = false := by
  decide

end security

namespace bot

/-- C23. The code at six commands of one user, one second apart, on the limiter
the bot builds: quota 5 and a window of 60 nanoseconds, which is not one
minute; every earlier timestamp is stale at the next command and all six are
admitted, the sixth too. With a window of one minute the sixth is rejected. -/
theorem C23_bot_window_is_60ns :
    RateLimiter.maxReq = 5 ∧ RateLimiter.window = 60 ∧ RateLimiter.window ≠ Minute ∧
    security.allowedResults "u" RateLimiter
        [0, Second, 2 * Second, 3 * Second, 4 * Second, 5 * Second]
      = [true, true, true, true, true, true] ∧
    security.allowedResults "u" (security.NewRateLimiter 5 Minute)
        [0, Second, 2 * Second, 3 * Second, 4 * Second, 5 * Second]
      = [true, true, true, true, true, false] := by
  decide

end bot

namespace openrouter

/-- C26. The code at `NewClient("test_api_key").SupportedModels()`, and at every
other client: eight models are returned, not the four of `expectedModels`,
each of which is among the eight. -/
theorem C26_supportedModels_returns_eight (c : Client) :
    c.SupportedModels.length = 8 ∧
    c.SupportedModels.length ≠ expectedModels.length ∧
    (∀ m ∈ expectedModels, m ∈ c.SupportedModels) ∧
    (NewClient "test_api_key").SupportedModels.length = 8 := by
  refine ⟨rfl, fun h => absurd h (show ¬ ((8 : Nat) = 4) by decide), ?_, rfl⟩
  intro m hm
  simp only [expectedModels, List.mem_cons, List.mem_singleton, List.not_mem_nil,
    or_false] at hm
  rcases hm with h | h | h | h <;> subst h <;> simp [Client.SupportedModels]

end openrouter

namespace security

/-! ## SanitizeInput -/

theorem length_take_le_length {α : Type} (n : Nat) (l : List α) :
    (l.take n).length ≤ l.length := by
  rw [List.length_take]
  exact Nat.min_le_right _ _

theorem length_drop_le_length {α : Type} (n : Nat) (l : List α) :
    (l.drop n).length ≤ l.length := by
  rw [List.length_drop]
  exact Nat.sub_le _ _

theorem trimLeftFunc_length_le (fuel : Nat) :
    ∀ s : GoString, (TrimLeftFunc fuel s).length ≤ s.length := by
  induction fuel with
  | zero => intro s; simp [TrimLeftFunc]
  | succ fuel ih =>
    intro s
    cases s with
    | nil => simp [TrimLeftFunc]
    | cons c rest =>
      have hdef : TrimLeftFunc (fuel + 1) (c :: rest)
          = if IsSpace (DecodeRuneInString (c :: rest)).1 = false then c :: rest
            else TrimLeftFunc fuel ((c :: rest).drop (DecodeRuneInString (c :: rest)).2) := rfl
      rw [hdef]
      split
      · exact Nat.le_refl _
      · exact Nat.le_trans (ih _) (length_drop_le_length _ _)

theorem trimRightFunc_length_le (s : GoString) : (TrimRightFunc s).length ≤ s.length := by
  unfold TrimRightFunc
  split
  · simp
  · split
    · exact length_take_le_length _ _
    · exact length_take_le_length _ _

theorem trimRightAscii_length_le (t : GoString) (stop : Nat) :
    (trimRightAscii t stop).length ≤ t.length := by
  induction stop with
  | zero => simp [trimRightAscii]
  | succ stop ih =>
    unfold trimRightAscii
    split
    · exact Nat.le_trans (trimRightFunc_length_le _) (length_take_le_length _ _)
    · split
      · exact length_take_le_length _ _
      · exact ih

theorem trimSpace_length_le (s : GoString) : (TrimSpace s).length ≤ s.length := by
  induction s with
  | nil => simp [TrimSpace]
  | cons c rest ih =>
    unfold TrimSpace
    split
    · exact Nat.le_trans (trimRightFunc_length_le _) (trimLeftFunc_length_le _ _)
    · split
      · exact trimRightAscii_length_le _ _
      · exact Nat.le_trans ih (Nat.le_succ _)

/-- For every input the result of `SanitizeInput` is at most 2000 bytes long. -/
theorem sanitizeInput_length_le (input : GoString) : (SanitizeInput input).length ≤ 2000 := by
  unfold SanitizeInput
  refine Nat.le_trans (trimSpace_length_le _) ?_
  dsimp only
  split
  · exact List.length_take_le _ _
  · omega

/-- C24. The code at the input of `TestSanitizeInput`: only the eleven bytes
of the class are removed, so the text between the two script tags, the tag
names and the slash stay, and the result is
`scriptalert'xss'/scriptHello  welcome`, not `Hello  welcome`. -/
theorem C24_sanitizeInput_keeps_script_text :
    SanitizeInput xssInput = utf8 "scriptalert'xss'/scriptHello  welcome" ∧
    SanitizeInput xssInput ≠ utf8 "Hello  welcome" := by
  decide

end security

namespace security

/-! ## The command prefix survives SanitizeInput -/

theorem decodeRune_ascii (s0 : Nat) (rest : GoString) (h : s0 < 0x80) :
    DecodeRuneInString (s0 :: rest) = (s0, 1) := by
  unfold DecodeRuneInString
  dsimp only
  rw [if_pos h]

theorem isSpace_of_ascii (c : Nat) (h : c < 0x80) (hs : asciiSpace c = false) :
    IsSpace c = false := by
  have hle : c ≤ 0xFF := by omega
  have h1 : c ≠ 0x85 := by omega
  have h2 : c ≠ 0xA0 := by omega
  simp only [asciiSpace, Bool.or_eq_false_iff, decide_eq_false_iff_not] at hs
  simp [IsSpace, hle, h1, h2, hs]

theorem lastRuneStart_le (s : GoString) (lim : Nat) (n : Nat) :
    lastRuneStart s lim n ≤ n - 1 := by
  induction n with
  | zero => simp [lastRuneStart]
  | succ n ih =>
    unfold lastRuneStart
    split
    · simp
    · split
      · simp
      · exact Nat.le_trans ih (by omega)

/-- The last rune of a non-empty string is at least one byte wide and not wider
than the string. -/
theorem decodeLastRune_size (s : GoString) (hne : s ≠ []) :
    1 ≤ (DecodeLastRuneInString s).2 ∧ (DecodeLastRuneInString s).2 ≤ s.length := by
  have hlen : 1 ≤ s.length := by
    cases s with
    | nil => exact absurd rfl hne
    | cons c rest => simp
  have hstart := lastRuneStart_le s (s.length - 4) (s.length - 1)
  unfold DecodeLastRuneInString
  split
  · rename_i hl
    exact absurd (List.getLast?_eq_none_iff.1 hl) hne
  · split
    · exact ⟨Nat.le_refl _, hlen⟩
    · dsimp only
      split
      · exact ⟨Nat.le_refl _, hlen⟩
      · rename_i heq
        have heq2 := not_not.1 heq
        omega

/-- On a string that starts with an ASCII byte, the last rune is narrower than
the string or it is that first byte. -/
theorem decodeLastRune_head (c : Nat) (rest : GoString) (hc : c < 0x80) :
    (DecodeLastRuneInString (c :: rest)).2 < (c :: rest).length ∨
    (DecodeLastRuneInString (c :: rest)).1 = c := by
  have hstart := lastRuneStart_le (c :: rest) ((c :: rest).length - 4) ((c :: rest).length - 1)
  unfold DecodeLastRuneInString
  split
  · rename_i hl
    exact absurd (List.getLast?_eq_none_iff.1 hl) (List.cons_ne_nil _ _)
  · rename_i b hb
    cases rest with
    | nil =>
      have hbc : b = c := by simpa using hb.symm
      right
      rw [hbc, if_pos hc]
    | cons c2 rest2 =>
      left
      split
      · simp
      · dsimp only
        split
        · simp
        · rename_i heq
          have heq2 := not_not.1 heq
          by_cases h0 : lastRuneStart (c :: c2 :: rest2) ((c :: c2 :: rest2).length - 4)
              ((c :: c2 :: rest2).length - 1) = 0
          · rw [h0] at heq2 ⊢
            rw [List.drop_zero, decodeRune_ascii c _ hc] at heq2 ⊢
            simp
          · omega

/-- On a string that starts with an ASCII byte that is not a space, the search
for the last rune that is not a space succeeds. -/
theorem lastIndexFunc_some (c : Nat) (rest : GoString) (hc : c < 0x80)
    (hs : IsSpace c = false) (fuel : Nat) :
    ∀ i, 1 ≤ i → i ≤ fuel → i ≤ (c :: rest).length →
      ∃ j, lastIndexFunc (c :: rest) fuel i = some j ∧ j < i := by
  induction fuel with
  | zero => intro i h1 h2; omega
  | succ fuel ih =>
    intro i h1 h2 h3
    obtain ⟨k, rfl⟩ : ∃ k, i = k + 1 := ⟨i - 1, by omega⟩
    have htake : (c :: rest).take (k + 1) = c :: rest.take k := rfl
    have hsize := decodeLastRune_size ((c :: rest).take (k + 1)) (by rw [htake]; simp)
    have hhead := decodeLastRune_head c (rest.take k) hc
    rw [← htake] at hhead
    have hlen : ((c :: rest).take (k + 1)).length = k + 1 := by
      rw [List.length_take]
      omega
    unfold lastIndexFunc
    rw [if_neg (by omega)]
    split
    · exact ⟨_, rfl, by omega⟩
    · rename_i hsp
      rcases hhead with hlt | heq
      · rw [hlen] at hlt
        obtain ⟨j, hj1, hj2⟩ := ih (k + 1 - (DecodeLastRuneInString ((c :: rest).take (k + 1))).2)
          (by omega) (by omega) (by omega)
        exact ⟨j, hj1, by omega⟩
      · rw [heq] at hsp
        exact absurd hs hsp

theorem trimRightFunc_head (c : Nat) (rest : GoString) (hc : c < 0x80)
    (hs : IsSpace c = false) : ∃ tail, TrimRightFunc (c :: rest) = c :: tail := by
  obtain ⟨j, hj, _⟩ := lastIndexFunc_some c rest hc hs (c :: rest).length (c :: rest).length
    (by simp) (Nat.le_refl _) (Nat.le_refl _)
  unfold TrimRightFunc
  rw [hj]
  dsimp only
  split
  · rename_i hge
    cases j with
    | zero =>
      have : (c :: rest).getD 0 0 = c := rfl
      rw [this] at hge
      omega
    | succ j2 =>
      rw [Nat.add_right_comm]
      exact ⟨_, rfl⟩
  · exact ⟨_, rfl⟩

theorem trimRightAscii_head (c : Nat) (rest : GoString) (hc : c < 0x80)
    (hs : asciiSpace c = false) (stop : Nat) :
    ∃ tail, trimRightAscii (c :: rest) (stop + 1) = c :: tail := by
  induction stop with
  | zero =>
    have h0 : (c :: rest).getD 0 0 = c := rfl
    unfold trimRightAscii
    rw [h0, if_neg (by omega), if_pos hs]
    exact ⟨_, rfl⟩
  | succ stop ih =>
    unfold trimRightAscii
    split
    · exact trimRightFunc_head c (rest.take (stop + 1)) hc (isSpace_of_ascii c hc hs)
    · split
      · exact ⟨_, rfl⟩
      · exact ih

/-- `TrimSpace` keeps a leading ASCII byte that is not a space. -/
theorem trimSpace_head (c : Nat) (rest : GoString) (hc : c < 0x80)
    (hs : asciiSpace c = false) : ∃ tail, TrimSpace (c :: rest) = c :: tail := by
  unfold TrimSpace
  rw [if_neg (by omega), if_pos hs]
  exact trimRightAscii_head c rest hc hs rest.length

/-- `SanitizeInput` keeps a leading `/`. -/
theorem sanitizeInput_head (rest : GoString) :
    ∃ tail, SanitizeInput (47 :: rest) = 47 :: tail := by
  have hrem : removeDangerous (47 :: rest) = 47 :: removeDangerous rest := by
    simp [removeDangerous, dangerousBytes]
  unfold SanitizeInput
  rw [hrem]
  dsimp only
  split
  · exact trimSpace_head 47 _ (by decide) (by decide)
  · exact trimSpace_head 47 _ (by decide) (by decide)

end security

namespace bot

/-- C27. For every message content whose first byte is `/`,
`SanitizeInput(content)` is not empty and its first byte is still `/`, so the
slice expression `content[1:]` of `handleCommandMessage` does not panic. -/
theorem C27_command_slice_in_bounds (mContent : security.GoString)
    (hcmd : isCommand mContent = true) :
    security.SanitizeInput mContent ≠ [] ∧
    (security.SanitizeInput mContent).head? = some '/'.toNat ∧
    commandText mContent = some ((security.SanitizeInput mContent).drop 1) := by
  cases mContent with
  | nil => exact absurd hcmd (by decide)
  | cons c rest =>
    have hc : c = 47 := by simpa [isCommand] using hcmd
    subst hc
    obtain ⟨tail, ht⟩ := security.sanitizeInput_head rest
    unfold commandText security.sliceFrom
    rw [ht]
    exact ⟨List.cons_ne_nil _ _, rfl, by simp⟩

/-- C27 on the message `/play <url>` followed by a no-break space and a space: the
sanitized content is `/play url`, the command text `play url`. -/
theorem C27_command_slice_in_bounds_witness :
    security.SanitizeInput (security.utf8 "/play <url> ") = security.utf8 "/play url" ∧
    commandText (security.utf8 "/play <url> ") = some (security.utf8 "play url") :=
  ⟨by decide,
   ((C27_command_slice_in_bounds (security.utf8 "/play <url> ") (by decide)).2.2).trans
    (by decide)⟩

end bot

namespace security

/-! ## The fuel of the two rune loops is enough -/

/-- The first rune of a non-empty string is at least one byte wide. -/
theorem decodeRune_size_pos (s : GoString) (hne : s ≠ []) : 1 ≤ (DecodeRuneInString s).2 := by
  cases s with
  | nil => exact absurd rfl hne
  | cons s0 rest =>
    by_cases h1 : s0 < 0x80
    · rw [decodeRune_ascii s0 rest h1]
    · unfold DecodeRuneInString
      dsimp only
      rw [if_neg h1]
      generalize (if s0 < 0xE0 then 2 else if s0 < 0xF0 then 3 else 4) = sz
      generalize (if s0 = 0xE0 then 0xA0 else if s0 = 0xF0 then 0x90 else 0x80) = lo
      generalize (if s0 = 0xED then 0x9F else if s0 = 0xF4 then 0x8F else 0xBF) = hi
      repeat' split
      all_goals (dsimp only; omega)

/-- `TrimLeftFunc` with any fuel of at least `len(s)` gives what it gives with
fuel `len(s)`: the loop never runs out of fuel. -/
theorem trimLeftFunc_fuel (fuel : Nat) :
    ∀ (s : GoString) (extra : Nat), s.length ≤ fuel →
      TrimLeftFunc (fuel + extra) s = TrimLeftFunc fuel s := by
  induction fuel with
  | zero =>
    intro s extra h
    have hs : s = [] := List.length_eq_zero.1 (Nat.le_zero.1 h)
    subst hs
    cases extra <;> rfl
  | succ fuel ih =>
    intro s extra h
    cases s with
    | nil => rw [Nat.add_right_comm]; rfl
    | cons c rest =>
      have hpos := decodeRune_size_pos (c :: rest) (List.cons_ne_nil _ _)
      have hdef : ∀ f, TrimLeftFunc (f + 1) (c :: rest)
          = if IsSpace (DecodeRuneInString (c :: rest)).1 = false then c :: rest
            else TrimLeftFunc f ((c :: rest).drop (DecodeRuneInString (c :: rest)).2) :=
        fun _ => rfl
      rw [Nat.add_right_comm, hdef, hdef]
      split
      · rfl
      · apply ih
        rw [List.length_drop]
        simp only [List.length_cons] at h ⊢
        omega

/-- `lastIndexFunc` from index `i` with any fuel of at least `i` gives what it
gives with fuel `i`: the loop never runs out of fuel. -/
theorem lastIndexFunc_fuel (s : GoString) (fuel : Nat) :
    ∀ (i extra : Nat), i ≤ fuel → i ≤ s.length →
      lastIndexFunc s (fuel + extra) i = lastIndexFunc s fuel i := by
  induction fuel with
  | zero =>
    intro i extra h _
    have hi : i = 0 := Nat.le_zero.1 h
    subst hi
    cases extra with
    | zero => rfl
    | succ e => simp [lastIndexFunc]
  | succ fuel ih =>
    intro i extra h hlen
    rw [Nat.add_right_comm]
    unfold lastIndexFunc
    by_cases hi : i = 0
    · rw [if_pos hi, if_pos hi]
    · rw [if_neg hi, if_neg hi]
      have hne : s.take i ≠ [] := by
        intro hnil
        have := congrArg List.length hnil
        rw [List.length_take] at this
        simp only [List.length_nil] at this
        omega
      have hsize := decodeLastRune_size (s.take i) hne
      split
      · rfl
      · exact ih _ extra (by omega) (by omega)

end security

namespace music

/-! ## The volume along a run -/

/-- The operations other than `SetVolume` leave the volume as it is. -/
theorem applyOp_volume (p p1 : Player) (op : Op) (hop : ∀ v, op ≠ .setVolume v)
    (h : applyOp p op = some p1) : p1.volume = p.volume := by
  cases op with
  | addToQueue t =>
    obtain rfl : p.AddToQueue t = p1 := Option.some.inj h
    rfl
  | play =>
    obtain rfl : p.Play.1 = p1 := Option.some.inj h
    rcases play_cases p with h1 | ⟨head, rest, _, h1⟩ <;> rw [h1]
  | pause =>
    obtain rfl : p.Pause = p1 := Option.some.inj h
    rfl
  | resume =>
    obtain rfl : p.Resume = p1 := Option.some.inj h
    unfold Player.Resume
    split <;> rfl
  | stop =>
    obtain rfl : p.Stop = p1 := Option.some.inj h
    rfl
  | skip =>
    obtain rfl : p.Skip.1 = p1 := Option.some.inj h
    cases hq : p.Queue with
    | nil => rw [skip_nil p hq]
    | cons head rest => rw [skip_cons p head rest hq]
  | setVolume v => exact absurd rfl (hop v)
  | clearQueue =>
    obtain rfl : p.ClearQueue = p1 := Option.some.inj h
    rfl
  | removeFromQueue i =>
    obtain rfl : (p.RemoveFromQueue i).1 = p1 := Option.some.inj h
    exact (removeFromQueue_sublist p i).2.2.2.1
  | moveInQueue f t =>
    obtain rfl : (p.MoveInQueue f t).1 = p1 := Option.some.inj h
    exact (moveInQueue_frame p f t).2.2.1
  | connectToVoice c =>
    simp only [applyOp, Player.ConnectToVoice] at h
    cases hv : p.voiceConn with
    | none => rw [hv] at h; cases h
    | some vc =>
      rw [hv] at h
      obtain rfl := Option.some.inj h
      rfl
  | disconnectFromVoice =>
    simp only [applyOp, Player.DisconnectFromVoice] at h
    cases hv : p.voiceConn with
    | none => rw [hv] at h; cases h
    | some vc =>
      rw [hv] at h
      obtain rfl := Option.some.inj h
      rfl

/-- The values set by `op :: ops` are the one `op` sets, when it is a
`SetVolume`, and those `ops` sets. -/
theorem setVolumes_cons (op : Op) (ops : List Op) :
    (∃ v, op = .setVolume v ∧ setVolumes (op :: ops) = v :: setVolumes ops) ∨
    ((∀ v, op ≠ .setVolume v) ∧ setVolumes (op :: ops) = setVolumes ops) := by
  cases op with
  | setVolume v => exact Or.inl ⟨v, rfl, rfl⟩
  | addToQueue t => exact Or.inr ⟨fun _ h => Op.noConfusion h, rfl⟩
  | play => exact Or.inr ⟨fun _ h => Op.noConfusion h, rfl⟩
  | pause => exact Or.inr ⟨fun _ h => Op.noConfusion h, rfl⟩
  | resume => exact Or.inr ⟨fun _ h => Op.noConfusion h, rfl⟩
  | stop => exact Or.inr ⟨fun _ h => Op.noConfusion h, rfl⟩
  | skip => exact Or.inr ⟨fun _ h => Op.noConfusion h, rfl⟩
  | clearQueue => exact Or.inr ⟨fun _ h => Op.noConfusion h, rfl⟩
  | removeFromQueue i => exact Or.inr ⟨fun _ h => Op.noConfusion h, rfl⟩
  | moveInQueue f t => exact Or.inr ⟨fun _ h => Op.noConfusion h, rfl⟩
  | connectToVoice c => exact Or.inr ⟨fun _ h => Op.noConfusion h, rfl⟩
  | disconnectFromVoice => exact Or.inr ⟨fun _ h => Op.noConfusion h, rfl⟩

theorem runOps_volume_inUnitInterval (ops : List Op) :
    ∀ p p2 : Player, F64.nan ∉ setVolumes ops → runOps p ops = some p2 →
      F64.inUnitInterval p.volume → F64.inUnitInterval p2.volume := by
  induction ops with
  | nil =>
    intro p p2 _ h hv
    obtain rfl : p = p2 := Option.some.inj h
    exact hv
  | cons op ops ih =>
    intro p p2 hnan h hv
    obtain ⟨p1, h1, h2⟩ := runOps_cons p op ops p2 h
    rcases setVolumes_cons op ops with ⟨v, hop, hsv⟩ | ⟨hop, hsv⟩
    · rw [hsv] at hnan
      subst hop
      obtain rfl : p.SetVolume v = p1 := Option.some.inj h1
      refine ih _ p2 (fun hm => hnan (List.mem_cons_of_mem _ hm)) h2 ?_
      exact setVolume_inUnitInterval p v (fun hv2 => hnan (hv2 ▸ List.mem_cons_self _ _))
    · rw [hsv] at hnan
      refine ih p1 p2 hnan h2 ?_
      rw [applyOp_volume p p1 op hop h1]
      exact hv

/-- C14, amended. For every value `v`, after `SetVolume(v)` `GetVolume` returns
`0.0` if `v < 0`, `1.0` if `v > 1` and `v` itself otherwise, with queue,
current, playing and connection unchanged; consequently the stored volume lies
in `[0, 1]` in every state reached from `NewPlayer` by a sequence of the public
operations in which no `SetVolume` argument is not-a-number. -/
theorem C14_volume_clamp (ops : List Op) (p : Player)
    (hnan : F64.nan ∉ setVolumes ops) (hrun : runOps NewPlayer ops = some p) :
    (∀ (q : Player) (v : F64),
      (q.SetVolume v).GetVolume
        = (if F64.lt v (.fin 0) = true then F64.fin 0
           else if F64.lt (.fin 1) v = true then F64.fin 1 else v) ∧
      (q.SetVolume v).Queue = q.Queue ∧ (q.SetVolume v).Current = q.Current ∧
      (q.SetVolume v).Playing = q.Playing ∧ (q.SetVolume v).voiceConn = q.voiceConn) ∧
    F64.inUnitInterval p.volume := by
  refine ⟨fun q v => ⟨rfl, rfl, rfl, rfl, rfl⟩, ?_⟩
  refine runOps_volume_inUnitInterval ops NewPlayer p hnan hrun ?_
  show (0 : Rat) ≤ 1 ∧ (1 : Rat) ≤ 1
  exact ⟨by decide, by decide⟩

/-- C14, amended, on a run that sets the volume to 2, queues and plays `track1`
and sets the volume to -3: the volume stored at the end is `0.0`. -/
theorem C14_volume_clamp_witness :
    runOps NewPlayer
        [.setVolume (.fin 2), .addToQueue (some track1), .play, .setVolume (.fin (-3))]
      = some mutedSession ∧
    mutedSession.GetVolume = .fin 0 ∧
    (NewPlayer.SetVolume (.fin 2)).GetVolume = .fin 1 ∧
    F64.inUnitInterval mutedSession.volume :=
  ⟨by decide, rfl, by decide,
   (C14_volume_clamp
      [.setVolume (.fin 2), .addToQueue (some track1), .play, .setVolume (.fin (-3))]
      mutedSession (by decide) (by decide)).2⟩

/-! ## The tracks a session holds -/

theorem addsFresh_cons (p p1 : Player) (op : Op) (ops : List Op)
    (h : addsFresh p (op :: ops) = true) (h1 : applyOp p op = some p1) :
    freshAdd p op = true ∧ addsFresh p1 ops = true := by
  unfold addsFresh at h
  rw [h1] at h
  simpa using h

/-- The invariant behind the amended C19: the non-nil pointers among the
current track and the queue are pairwise different. -/
theorem runOps_held_nodup (ops : List Op) :
    ∀ p p2 : Player, addsFresh p ops = true → runOps p ops = some p2 →
      ((p.Current :: p.Queue).filter Option.isSome).Nodup →
      ((p2.Current :: p2.Queue).filter Option.isSome).Nodup := by
  induction ops with
  | nil =>
    intro p p2 _ h hnd
    obtain rfl : p = p2 := Option.some.inj h
    exact hnd
  | cons op ops ih =>
    intro p p2 hfresh h hnd
    obtain ⟨p1, h1, h2⟩ := runOps_cons p op ops p2 h
    obtain ⟨hf, hrest⟩ := addsFresh_cons p p1 op ops hfresh h1
    refine ih p1 p2 hrest h2 ?_
    rcases addedTracks_cons op ops with ⟨t, hop, _⟩ | ⟨hop, _⟩
    · subst hop
      obtain rfl : p.AddToQueue t = p1 := Option.some.inj h1
      have hq : (p.AddToQueue t).Current :: (p.AddToQueue t).Queue
          = (p.Current :: p.Queue) ++ [t] := rfl
      rw [hq, List.filter_append]
      cases t with
      | none => simpa using hnd
      | some x =>
        have hfx : some x ∉ p.Queue ∧ p.Current ≠ some x := by
          simpa [freshAdd] using hf
        have hsingle : List.filter Option.isSome [some x] = [some x] := rfl
        rw [hsingle]
        refine List.Nodup.append hnd (List.nodup_singleton _) ?_
        intro y hy1 hy2
        rw [List.mem_singleton.1 hy2] at hy1
        rcases List.mem_cons.1 (List.mem_filter.1 hy1).1 with hcur | hqueue
        · exact hfx.2 hcur.symm
        · exact hfx.1 hqueue
    · rcases applyOp_shape p p1 op hop h1 with ⟨hc, hq⟩ | hsub
      · rw [hc, hq]
        exact List.nodup_nil
      · obtain ⟨l, hl1, hl2⟩ := List.Subperm.filter Option.isSome hsub
        exact hl1.nodup_iff.1 (hnd.sublist hl2)

theorem freshAdd_of_not_add (p : Player) (op : Op) (hop : ∀ t, op ≠ .addToQueue t) :
    freshAdd p op = true := by
  cases op with
  | addToQueue t => exact absurd rfl (hop t)
  | play => rfl
  | pause => rfl
  | resume => rfl
  | stop => rfl
  | skip => rfl
  | setVolume v => rfl
  | clearQueue => rfl
  | removeFromQueue i => rfl
  | moveInQueue f t => rfl
  | connectToVoice c => rfl
  | disconnectFromVoice => rfl

/-- A run whose non-nil `AddToQueue` arguments are pairwise different, and not
held by the session it starts from, never adds a track that the session holds. -/
theorem addsFresh_of_nodup (ops : List Op) :
    ∀ p : Player, ((addedTracks ops).filter Option.isSome).Nodup →
      (∀ t ∈ addedTracks ops, t.isSome = true → t ∉ p.Current :: p.Queue) →
      addsFresh p ops = true := by
  induction ops with
  | nil => intro p _ _; rfl
  | cons op ops ih =>
    intro p hnd hnew
    have hstep : ∀ p1, applyOp p op = some p1 → addsFresh p1 ops = true := by
      intro p1 h1
      rcases addedTracks_cons op ops with ⟨t, hop, hat⟩ | ⟨hop, hat⟩
      · rw [hat] at hnd hnew
        subst hop
        obtain rfl : p.AddToQueue t = p1 := Option.some.inj h1
        have hq : (p.AddToQueue t).Current :: (p.AddToQueue t).Queue
            = (p.Current :: p.Queue) ++ [t] := rfl
        have hnd2 : ((addedTracks ops).filter Option.isSome).Nodup := by
          cases t with
          | none => simpa using hnd
          | some x =>
            have hcons : List.filter Option.isSome (some x :: addedTracks ops)
                = some x :: List.filter Option.isSome (addedTracks ops) := rfl
            rw [hcons] at hnd
            exact (List.nodup_cons.1 hnd).2
        refine ih _ hnd2 ?_
        intro t2 ht2 hs2 hm
        rw [hq] at hm
        rcases List.mem_append.1 hm with hm1 | hm1
        · exact hnew t2 (List.mem_cons_of_mem _ ht2) hs2 hm1
        · have heq : t2 = t := List.mem_singleton.1 hm1
          subst heq
          cases t2 with
          | none => exact Bool.noConfusion hs2
          | some x =>
            have hcons : List.filter Option.isSome (some x :: addedTracks ops)
                = some x :: List.filter Option.isSome (addedTracks ops) := rfl
            rw [hcons] at hnd
            exact (List.nodup_cons.1 hnd).1 (List.mem_filter.2 ⟨ht2, rfl⟩)
      · rw [hat] at hnd hnew
        refine ih p1 hnd ?_
        intro t2 ht2 hs2 hm
        rcases applyOp_shape p p1 op hop h1 with ⟨hc, hq⟩ | hsub
        · rw [hc, hq] at hm
          rw [List.mem_singleton.1 hm] at hs2
          exact Bool.noConfusion hs2
        · exact hnew t2 ht2 hs2 (hsub.subset hm)
    have hfresh : freshAdd p op = true := by
      rcases addedTracks_cons op ops with ⟨t, hop, hat⟩ | ⟨hop, _⟩
      · subst hop
        cases t with
        | none => rfl
        | some x =>
          have hx := hnew (some x) (by rw [hat]; exact List.mem_cons_self _ _) rfl
          have h1 : some x ∉ p.Queue := fun hm => hx (List.mem_cons_of_mem _ hm)
          have h2 : p.Current ≠ some x := fun hc => hx (hc ▸ List.mem_cons_self _ _)
          simp [freshAdd, h1, h2]
      · exact freshAdd_of_not_add p op hop
    unfold addsFresh
    rw [hfresh, Bool.true_and]
    cases h1 : applyOp p op with
    | none => rfl
    | some p1 => exact hstep p1 h1

/-- C19, amended. In every state reached from `NewPlayer` by a sequence of the
public operations in which no `AddToQueue` is given a track that the session
holds at the moment of the call, as its current track or in its queue, the
queue does not hold the current track. -/
theorem C19_queue_excludes_current (ops : List Op) (p : Player)
    (hfresh : addsFresh NewPlayer ops = true) (hrun : runOps NewPlayer ops = some p) :
    ∀ c, p.Current = some c → some c ∉ p.Queue := by
  have h := runOps_held_nodup ops NewPlayer p hfresh hrun List.nodup_nil
  intro c hc hm
  rw [hc] at h
  have hhead : List.filter Option.isSome (some c :: p.Queue)
      = some c :: List.filter Option.isSome p.Queue := rfl
  rw [hhead] at h
  exact (List.nodup_cons.1 h).1 (List.mem_filter.2 ⟨hm, rfl⟩)

/-- C19, amended, on a run that queues `track1`, a nil pointer twice and
`track2`, plays and skips until `track1` has left the session, queues `track1`
again and skips: the current track is `track2` and the queue is `[track1]`. -/
theorem C19_queue_excludes_current_witness :
    runOps NewPlayer
        [.addToQueue (some track1), .addToQueue none, .addToQueue none,
          .addToQueue (some track2), .play, .skip, .skip, .addToQueue (some track1), .skip]
      = some readdedSession ∧
    readdedSession.Current = some track2 ∧ some track2 ∉ readdedSession.Queue :=
  ⟨by decide, rfl,
   C19_queue_excludes_current
    [.addToQueue (some track1), .addToQueue none, .addToQueue none,
      .addToQueue (some track2), .play, .skip, .skip, .addToQueue (some track1), .skip]
    readdedSession (by decide) (by decide) track2 rfl⟩

end music
